import Mathlib

namespace SolCHC

/-! ## Symbolic terms and predicates

Shallow embedding of the smt::Expression values and symbolic predicates
manipulated by the CHC encoder (src/libsolidity/formal/CHC.cpp). -/

/-- Kinds of symbolic predicates allocated by the encoder, mirroring the
creation sites in CHC.cpp (genesis, per-contract interface, error,
constructor summary, implicit constructor, per-function summary,
statement-level blocks, constructor exit blocks). -/
inductive PredKind where
  | genesis
  | interfaceP
  | errorP
  | ctorSummary
  | implicitCtor
  | funcSummary
  | blockP
  | ctorExit
  deriving DecidableEq, Repr

/-- Identity of a symbolic predicate: its kind tag and its generated name.
In CHC.cpp a predicate is a smt::SymbolicFunctionVariable; we keep the name
it was registered under plus a kind tag recording its creation site. -/
structure PredId where
  kind : PredKind
  pname : String
  deriving DecidableEq, Repr

/-- First-order terms of the shallow embedding of smt::Expression.
SSA variables are (name, index) pairs; `errVar i` is the error SSA variable
`m_error` at index `i`; `astExpr id` is the opaque value the external
expression encoder produces for the AST expression node with id `id`. -/
inductive Term where
  | boolLit (b : Bool)
  | intLit (n : Int)
  | errVar (i : Nat)
  | svar (vn : String) (i : Nat)
  | astExpr (id : Nat)
  | notT (t : Term)
  | andT (a b : Term)
  | eqT (a b : Term)
  | gtT (a b : Term)
  | predApp (p : PredId) (args : List Term)

/-! ## Program model

A restricted AST mirror: contracts without inheritance (the linearised base
list is the contract itself), with functions made of the statement forms the
encoder handles specially.  Conditions and call arguments are opaque
expression nodes identified by their AST id, since the expression encoder
(SMTEncoder) is an external collaborator. -/

/-- A declared variable: its name and whether
VariableDeclaration::hasReferenceOrMappingType() holds for it. -/
structure SVar where
  vn : String
  refOrMapping : Bool
  deriving DecidableEq, Repr

/-- Statements of the restricted AST.  Each carries the AST node ids the
encoder consumes (for names, assertion ids, and callee resolution). -/
inductive Stmt where
  | assertS (condId callId : Nat)
  | callS (calleeFid : Nat) (argIds : List Nat)
  | unknownS (nodeId : Nat)
  | ifS (ifId condId thenId : Nat) (thenB : List Stmt)
      (elseInfo : Option (Nat × List Stmt))
  | whileS (isDoWhile : Bool) (whileId condId bodyId : Nat) (body : List Stmt)
  | breakS (nodeId : Nat)
  | continueS (nodeId : Nat)

/-- A function definition: AST id, name, kind flags, parameter/return/local
variables, the AST id of its body block and the body statements. -/
structure FuncDef where
  fid : Nat
  fname : String
  isCtor : Bool
  isPublic : Bool
  implemented : Bool
  params : List SVar
  rets : List SVar
  locals : List SVar
  bodyId : Nat
  body : List Stmt

/-- A contract definition: AST id, name, library flag, state variables and
defined functions.  No inheritance: linearizedBaseContracts = [self]. -/
structure ContractDef where
  cid : Nat
  cname : String
  isLib : Bool
  stateVars : List SVar
  funcs : List FuncDef

/-! ## Encoder state -/

/-- One Horn rule as added by CHC::connectBlocks: the rule is
`src ∧ (conjunction of ctx) ∧ guard ⇒ dst` (m_context.assertions() is kept
as the separate `ctx` field). -/
structure Rule where
  src : Term
  ctx : List Term
  guard : Term
  dst : Term

/-- Record of one registerRelation call: the registered name, the kind of
the predicate and the value of m_blockCounter at registration time. -/
structure RegEntry where
  rname : String
  kind : PredKind
  ctrAt : Nat
  deriving DecidableEq, Repr

/-- A verification target as stored in m_verificationTargets:
scope AST id, the predicate expression `value`, the guarding `constraints`
and the symbolic error index at registration. -/
structure VTarget where
  scopeId : Nat
  value : Term
  constraints : Term
  errorId : Term

/-- The mutable encoder state: a flat record of the CHC data members that
the claims touch (rules and registrations accumulated in the solver, block
counter, error SSA index, per-variable SSA indices, context assertions,
current block, loop destinations, call graph, per-function assertion sets,
verification targets, and current contract/function). -/
structure EncState where
  rules : List Rule
  registered : List RegEntry
  blockCounter : Nat
  errIdx : Nat
  ssa : String → Nat
  knownVars : List SVar
  ctxA : List Term
  pathCond : Term
  currentBlock : Term
  breakDest : Option PredId
  continueDest : Option PredId
  callGraph : List (Nat × Nat)
  funcAsserts : List (Nat × Nat)
  targets : List VTarget
  unknownSeen : Bool
  curFn : Option FuncDef
  curContract : Option ContractDef
  stVars : List SVar
  interfacesM : List (Nat × PredId)
  summariesM : List ((Nat × Nat) × PredId)
  errorPredName : String

/-- Initial encoder state (fresh CHC object at the start of analyze). -/
def initState : EncState where
  rules := []
  registered := []
  blockCounter := 0
  errIdx := 0
  ssa := fun _ => 0
  knownVars := []
  ctxA := []
  pathCond := .boolLit true
  currentBlock := .boolLit true
  breakDest := none
  continueDest := none
  callGraph := []
  funcAsserts := []
  targets := []
  unknownSeen := false
  curFn := none
  curContract := none
  stVars := []
  interfacesM := []
  summariesM := []
  errorPredName := ""

/-! ## Decimal rendering of the block counter (std::to_string) -/

/-- Decimal digit characters. -/
def digitChar : Nat → Char
  | 0 => '0' | 1 => '1' | 2 => '2' | 3 => '3' | 4 => '4'
  | 5 => '5' | 6 => '6' | 7 => '7' | 8 => '8' | _ => '9'

/-- Decimal digits of a natural number, most significant first
(models std::to_string on unsigned values). -/
def natChars (n : Nat) : List Char :=
  if _h : n < 10 then [digitChar n]
  else natChars (n / 10) ++ [digitChar (n % 10)]
  decreasing_by exact Nat.div_lt_self (by omega) (by omega)

/-- String form of a natural number, used wherever CHC.cpp calls
std::to_string on a counter or an AST id. -/
def natStr (n : Nat) : String := ⟨natChars n⟩

/-! ## SSA helpers -/

/-- Point update of the SSA index map. -/
def updSSA (σ : String → Nat) (x : String) (k : Nat) : String → Nat :=
  fun y => if y = x then k else σ y

/-- SymbolicVariable::increaseIndex on one variable. -/
def bumpVar (σ : String → Nat) (x : String) : String → Nat :=
  updSSA σ x (σ x + 1)

/-- Set every variable in the list to index `k` (resetIndex / valueAtIndex
bookkeeping). -/
def setAllIdx (σ : String → Nat) (xs : List String) (k : Nat) : String → Nat :=
  xs.foldl (fun τ x => updSSA τ x k) σ

/-- Bump every variable in the list once. -/
def bumpAll (σ : String → Nat) (xs : List String) : String → Nat :=
  xs.foldl bumpVar σ

/-- Names of a variable list. -/
def namesOf (vs : List SVar) : List String := vs.map (·.vn)

/-! ## State-variable term vectors (CHC.cpp lines 849-907) -/

/-- CHC::stateVariablesAtIndex(_index, _contract)-style vector over an
explicit variable list. -/
def varsAt (i : Nat) (vs : List SVar) : List Term :=
  vs.map (fun v => .svar v.vn i)

/-- CHC::currentStateVariables: current value of every m_stateVariables. -/
def currentStateVars (st : EncState) : List Term :=
  st.stVars.map (fun v => .svar v.vn (st.ssa v.vn))

/-- CHC::initialStateVariables: every m_stateVariables at SSA index 0. -/
def initialStateVars (st : EncState) : List Term :=
  varsAt 0 st.stVars

/-- Current values of an arbitrary variable list. -/
def currentVals (st : EncState) (vs : List SVar) : List Term :=
  vs.map (fun v => .svar v.vn (st.ssa v.vn))

/-- CHC::currentFunctionVariables: error value, state at index 0, inputs at
index 0, current state, current inputs, current outputs. -/
def currentFunctionVars (st : EncState) : List Term :=
  let ps := match st.curFn with | some f => f.params | none => []
  let rs := match st.curFn with | some f => f.rets | none => []
  Term.errVar st.errIdx ::
    (initialStateVars st ++ varsAt 0 ps ++ currentStateVars st ++
      currentVals st ps ++ currentVals st rs)

/-- CHC::currentBlockVariables: function variables plus current locals. -/
def currentBlockVars (st : EncState) : List Term :=
  let ls := match st.curFn with | some f => f.locals | none => []
  currentFunctionVars st ++ currentVals st ls

/-- Id of the current contract (0 when absent; the encoder only runs with a
current contract set). -/
def curCid (st : EncState) : Nat :=
  match st.curContract with | some c => c.cid | none => 0

/-! ## Basic state transformers -/

/-- CHC::connectBlocks: record the Horn rule
`src ∧ m_context.assertions() ∧ guard ⇒ dst`. -/
def connectBlocks (st : EncState) (src dst guard : Term) : EncState :=
  { st with rules := st.rules ++ [⟨src, st.ctxA, guard, dst⟩] }

/-- m_context.addAssertion. -/
def addAssertion (st : EncState) (t : Term) : EncState :=
  { st with ctxA := st.ctxA ++ [t] }

/-- CHC::createSymbolicBlock: make the predicate handle and register the
relation with the backend, recording the counter value at registration. -/
def createSymbolicBlock (st : EncState) (k : PredKind) (nm : String) :
    PredId × EncState :=
  (⟨k, nm⟩, { st with registered := st.registered ++ [⟨nm, k, st.blockCounter⟩] })

/-- CHC::uniquePrefix renders the current counter in decimal and bumps it;
the creators below inline this so that the registration record keeps the
counter value that went into the name. -/
def uniqueCounterStr (st : EncState) : String :=
  natStr st.blockCounter

/-- CHC::predicateName for a FunctionDefinition node (TokenTraits string of
the kind, the function name when nonempty, node id, contract id). -/
def predicateNameFn (f : FuncDef) (cid : Nat) : String :=
  (if f.isCtor then "constructor" else "function") ++
    (if f.fname ≠ "" then "_" ++ f.fname ++ "_" else "") ++
    "_" ++ natStr f.fid ++ "_" ++ natStr cid

/-- CHC::predicateName for a non-function node (current function name when
nonempty, node id, contract id). -/
def predicateNameNode (st : EncState) (nodeId : Nat) : String :=
  (match st.curFn with
    | some f => if f.fname ≠ "" then f.fname else ""
    | none => "") ++
    "_" ++ natStr nodeId ++ "_" ++ natStr (curCid st)

/-- Name layout produced by CHC::createBlock. -/
def mkBlockName (ctr : Nat) (pfx rest : String) : String :=
  "block_" ++ natStr ctr ++ "_" ++ pfx ++ rest

/-- Name layout produced by CHC::createSummaryBlock. -/
def mkSummaryName (ctr : Nat) (rest : String) : String :=
  "summary_" ++ natStr ctr ++ "_" ++ rest

/-- CHC::createBlock on a non-function AST node: the name carries
uniquePrefix (the counter, which is then bumped). -/
def createBlockNode (st : EncState) (nodeId : Nat) (pfx : String) :
    PredId × EncState :=
  let c := createSymbolicBlock st .blockP
    (mkBlockName st.blockCounter pfx (predicateNameNode st nodeId))
  (c.1, { c.2 with blockCounter := c.2.blockCounter + 1 })

/-- CHC::createBlock on a FunctionDefinition node (empty custom text). -/
def createBlockFn (st : EncState) (f : FuncDef) : PredId × EncState :=
  let c := createSymbolicBlock st .blockP
    (mkBlockName st.blockCounter "" (predicateNameFn f (curCid st)))
  (c.1, { c.2 with blockCounter := c.2.blockCounter + 1 })

/-- CHC::createSummaryBlock. -/
def createSummaryBlock (st : EncState) (f : FuncDef) (c : ContractDef) :
    PredId × EncState :=
  let b := createSymbolicBlock st .funcSummary
    (mkSummaryName st.blockCounter (predicateNameFn f c.cid))
  (b.1, { b.2 with blockCounter := b.2.blockCounter + 1 })

/-! ## Havocking -/

/-- Give a fresh SSA index to every reference- or mapping-typed variable of
the list (the resetVariables iteration with the
hasReferenceOrMappingType filter). -/
def havocRefs (vs : List SVar) (σ : String → Nat) : String → Nat :=
  vs.foldl (fun τ v => if v.refOrMapping then bumpVar τ v.vn else τ) σ

/-- Modelled from the spec: SMTEncoder::resetStateVariables is not under
src/.  Per the spec, unknown calls havoc reference/mapping-typed state but
leave value-typed state variables unchanged, so this resets (gives a fresh
SSA index to) exactly the reference- or mapping-typed state variables. -/
def resetStateVariables (st : EncState) : EncState :=
  { st with ssa := havocRefs st.stVars st.ssa }

/-- m_context.resetVariables with the hasReferenceOrMappingType filter:
fresh SSA index for every known reference- or mapping-typed variable. -/
def resetRefVariables (st : EncState) : EncState :=
  { st with ssa := havocRefs st.knownVars st.ssa }

/-- CHC::eraseKnowledge (CHC.cpp lines 590-594). -/
def eraseKnowledge (st : EncState) : EncState :=
  resetRefVariables (resetStateVariables st)

/-- CHC::clearIndices (CHC.cpp lines 596-610).  The SMTEncoder base part is
not under src/; modelled from the spec: it resets indices so that, after the
CHC bumps, state variables sit one above their index-0 transaction snapshot
and the function's parameters, returns and locals sit one above their
index-0 entry snapshot. -/
def clearIndices (st : EncState) (fn : Option FuncDef) : EncState :=
  let σ₀ := setAllIdx st.ssa (namesOf st.stVars) 0
  let σ₁ := bumpAll σ₀ (namesOf st.stVars)
  let σ₂ := match fn with
    | some f =>
        let τ₀ := setAllIdx σ₁ (namesOf (f.params ++ f.rets)) 0
        let τ₁ := bumpAll τ₀ (namesOf (f.params ++ f.rets))
        let τ₂ := setAllIdx τ₁ (namesOf f.locals) 0
        bumpAll τ₂ (namesOf f.locals)
    | none => σ₁
  { st with ssa := σ₂ }

/-- CHC::setCurrentBlock: pop the solver frame (dropping accumulated
context assertions), clearIndices for current contract and function, push a
fresh frame, and set the current block to the given predicate applied to
the given arguments (or to currentBlockVariables after the clear). -/
def setCurrentBlock (st : EncState) (p : PredId) (args : Option (List Term)) :
    EncState :=
  let st₁ := { st with ctxA := [] }
  let st₂ := clearIndices st₁ st.curFn
  { st₂ with currentBlock :=
      match args with
      | some a => .predApp p a
      | none => .predApp p (currentBlockVars st₂) }

/-! ## Interface and summary applications -/

/-- Genesis predicate application. -/
def genesisApp : Term := .predApp ⟨.genesis, "genesis"⟩ []

/-- Lookup of m_interfaces.at for a contract id (total model of map::at). -/
def lookupIface (st : EncState) (cid : Nat) : PredId :=
  match st.interfacesM.find? (fun e => e.1 = cid) with
  | some e => e.2
  | none => ⟨.interfaceP, "missing_interface"⟩

/-- Lookup of m_summaries.at(contract).at(function). -/
def lookupSummary (st : EncState) (ccid fid : Nat) : PredId :=
  match st.summariesM.find? (fun e => e.1.1 = ccid ∧ e.1.2 = fid) with
  | some e => e.2
  | none => ⟨.funcSummary, "missing_summary"⟩

/-- CHC::interface(): the current contract's interface applied to the
current values of m_stateVariables. -/
def ifaceCurrent (st : EncState) : Term :=
  .predApp (lookupIface st (curCid st)) (currentStateVars st)

/-- CHC::interface(_contract): that contract's interface applied to its own
state variables at SSA index 0. -/
def ifaceOf (st : EncState) (c : ContractDef) : Term :=
  .predApp (lookupIface st c.cid) (varsAt 0 c.stateVars)

/-- Name of the constructor summary predicate for a contract suffix. -/
def ctorSummaryName (c : ContractDef) : String :=
  "summary_constructor_" ++ c.cname ++ "_" ++ natStr c.cid

/-- CHC::summary(ContractDefinition): the constructor summary applied to
the current error value and the current state variables. -/
def ctorSummaryApp (st : EncState) : Term :=
  .predApp ⟨.ctorSummary,
      match st.curContract with
      | some c => ctorSummaryName c
      | none => "missing_ctor_summary"⟩
    (Term.errVar st.errIdx :: currentStateVars st)

/-- functionCallToDefinition: resolve a callee AST id to its definition and
its declaring contract (FunctionDefinition::annotation().contract). -/
def funcCallToDef (prog : List ContractDef) (fid : Nat) :
    Option (ContractDef × FuncDef) :=
  match prog.find? (fun c => c.funcs.any (fun f => f.fid = fid)) with
  | some c =>
      match c.funcs.find? (fun f => f.fid = fid) with
      | some f => some (c, f)
      | none => none
  | none => none

/-- Declaring contract of a function (annotation().contract). -/
def declaringContract (prog : List ContractDef) (f : FuncDef) :
    Option ContractDef :=
  (funcCallToDef prog f.fid).map (·.1)

/-- CHC::summary(FunctionDefinition) (CHC.cpp lines 801-812): error value,
pre-state (the declaring library's own variables at index 0, else the
calling contract's index-0 snapshot), inputs at index 0, post-state (the
library's variables at index 1, else the calling contract's current state),
current outputs; looked up in m_summaries.at(m_currentContract). -/
def funcSummaryApp (prog : List ContractDef) (st : EncState) (f : FuncDef) :
    Term :=
  let declC := declaringContract prog f
  let isLib := match declC with | some c => c.isLib | none => false
  let libVars := match declC with | some c => c.stateVars | none => []
  let pre := if isLib then varsAt 0 libVars else initialStateVars st
  let post := if isLib then varsAt 1 libVars else currentStateVars st
  .predApp (lookupSummary st (curCid st) f.fid)
    (Term.errVar st.errIdx ::
      (pre ++ varsAt 0 f.params ++ post ++ currentVals st f.rets))

/-- Scope key used for m_callGraph and m_functionAssertions: the current
function unless we are in (or before) a constructor, then the contract. -/
def scopeIdOf (st : EncState) : Nat :=
  match st.curFn with
  | some f => if ¬f.isCtor then f.fid else curCid st
  | none => curCid st

/-- CHC::summary of the enclosing scope: the current function's summary for
normal functions, the contract's constructor summary otherwise. -/
def enclosingSummary (prog : List ContractDef) (st : EncState) : Term :=
  match st.curFn with
  | some f => if ¬f.isCtor then funcSummaryApp prog st f else ctorSummaryApp st
  | none => ctorSummaryApp st

/-! ## Call predicate (CHC::predicate(FunctionCall), lines 939-969) -/

/-- Bump the SSA index of every m_stateVariables once. -/
def bumpStateVars (st : EncState) : EncState :=
  { st with ssa := bumpAll st.ssa (namesOf st.stVars) }

/-- Return-parameter handling of CHC::predicate(FunctionCall): known
variables get a fresh index, unknown ones are created. -/
def bumpOrCreateRets (st : EncState) (rets : List SVar) : EncState :=
  rets.foldl
    (fun s r =>
      if s.knownVars.any (fun w => w.vn = r.vn) then
        { s with ssa := bumpVar s.ssa r.vn }
      else
        { s with knownVars := s.knownVars ++ [r] })
    st

/-- CHC::predicate(FunctionCall): the callee summary application
`(newError, preState, args, postState, returns)`; bumps the error variable,
every state variable of the calling contract, and the callee's return
parameters.  Unresolvable callees yield the literal true. -/
def predicateCall (prog : List ContractDef) (st : EncState)
    (calleeFid : Nat) (argIds : List Nat) : Term × EncState :=
  match funcCallToDef prog calleeFid with
  | none => (.boolLit true, st)
  | some (cc, f) =>
      let st₁ := { st with errIdx := st.errIdx + 1 }
      let pre := if cc.isLib then varsAt 0 cc.stateVars else currentStateVars st₁
      let argTerms := argIds.map Term.astExpr
      let st₂ := bumpStateVars st₁
      let post := if cc.isLib then varsAt 1 cc.stateVars else currentStateVars st₂
      let st₃ := bumpOrCreateRets st₂ f.rets
      let retTerms := currentVals st₃ f.rets
      let pid := if cc.isLib then lookupSummary st₃ cc.cid f.fid
        else lookupSummary st₃ (curCid st₃) f.fid
      (.predApp pid (Term.errVar st₁.errIdx :: (pre ++ argTerms ++ post ++ retTerms)), st₃)

/-! ## Statement-level visitors -/

/-- CHC::visitAssert (lines 501-524): record the call site in the
function-assertions map, bump the error variable, emit one edge to the
enclosing summary guarded by `pathCond ∧ ¬cond ∧ (error = callId)`, then
constrain the new error value to the previous one. -/
def visitAssert (prog : List ContractDef) (st : EncState)
    (condId callId : Nat) : EncState :=
  let st₁ := { st with funcAsserts := st.funcAsserts ++ [(scopeIdOf st, callId)] }
  let prevErr := Term.errVar st₁.errIdx
  let st₂ := { st₁ with errIdx := st₁.errIdx + 1 }
  let dst := enclosingSummary prog st₂
  let g := Term.andT (.andT st₂.pathCond (.notT (.astExpr condId)))
    (.eqT (.errVar st₂.errIdx) (.intLit callId))
  let st₃ := connectBlocks st₂ st₂.currentBlock dst g
  addAssertion st₃ (.eqT (.errVar st₃.errIdx) prevErr)

/-- CHC::internalFunctionCall (lines 526-557): record the call-graph edge,
assert the library interface for library callees, assert the callee summary
application, route early exit to the enclosing summary guarded by
`error > 0`, then restore the error variable for the fall-through. -/
def internalFunctionCall (prog : List ContractDef) (st : EncState)
    (calleeFid : Nat) (argIds : List Nat) : EncState :=
  let st₁ := match funcCallToDef prog calleeFid with
    | some (cc, f) =>
        let sA := { st with callGraph := st.callGraph ++ [(scopeIdOf st, f.fid)] }
        if cc.isLib then addAssertion sA (ifaceOf sA cc) else sA
    | none => st
  let prevErr := Term.errVar st₁.errIdx
  let pr := predicateCall prog st₁ calleeFid argIds
  let st₃ := addAssertion pr.2 pr.1
  let st₄ := connectBlocks st₃ st₃.currentBlock (enclosingSummary prog st₃)
    (.gtT (.errVar st₃.errIdx) (.intLit 0))
  let st₅ := addAssertion st₄ (.eqT (.errVar st₄.errIdx) (.intLit 0))
  let st₆ := { st₅ with errIdx := st₅.errIdx + 1 }
  addAssertion st₆ (.eqT (.errVar st₆.errIdx) prevErr)

/-- CHC::unknownFunctionCall (lines 559-569): erase knowledge and remember
that an unknown call was seen. -/
def unknownFunctionCall (st : EncState) : EncState :=
  { eraseKnowledge st with unknownSeen := true }

/-- CHC::visit(IfStatement) (lines 281-327), parametric in the recursive
body encoders: create header, true, optional false and after blocks, emit
the header edges, encode the branches, join at the after block, havoc at
exit if an unknown call was seen. -/
def encodeIfGen (ifId condId thenId : Nat) (elseId : Option Nat)
    (recT recE : EncState → EncState) (st : EncState) : EncState :=
  let saved := st.unknownSeen
  let st0 := { st with unknownSeen := false }
  let fb := match st0.curFn with | some f => f.bodyId | none => 0
  let ph := createBlockNode st0 ifId "if_header_"
  let hdr := ph.1
  let st1 := ph.2
  let pt := createBlockNode st1 thenId "if_true_"
  let tB := pt.1
  let st2 := pt.2
  let pf := match elseId with
    | some eId =>
        let p := createBlockNode st2 eId "if_false_"
        (some p.1, p.2)
    | none => ((none : Option PredId), st2)
  let fBlk := pf.1
  let st3 := pf.2
  let pa := createBlockNode st3 fb ""
  let afterB := pa.1
  let st4 := pa.2
  let st5 := connectBlocks st4 st4.currentBlock
    (.predApp hdr (currentBlockVars st4)) (.boolLit true)
  let st6 := setCurrentBlock st5 hdr none
  let cond := Term.astExpr condId
  let st7 := connectBlocks st6 st6.currentBlock
    (.predApp tB (currentBlockVars st6)) cond
  let st8 := match fBlk with
    | some fB => connectBlocks st7 st7.currentBlock
        (.predApp fB (currentBlockVars st7)) (.notT cond)
    | none => connectBlocks st7 st7.currentBlock
        (.predApp afterB (currentBlockVars st7)) (.notT cond)
  let st9 := setCurrentBlock st8 tB none
  let st10 := recT st9
  let st11 := connectBlocks st10 st10.currentBlock
    (.predApp afterB (currentBlockVars st10)) (.boolLit true)
  let st12 := match elseId, fBlk with
    | some _, some fB =>
        let s := setCurrentBlock st11 fB none
        let s' := recE s
        connectBlocks s' s'.currentBlock
          (.predApp afterB (currentBlockVars s')) (.boolLit true)
    | _, _ => st11
  let st13 := setCurrentBlock st12 afterB none
  let st14 := if st13.unknownSeen then eraseKnowledge st13 else st13
  { st14 with unknownSeen := saved }

/-- CHC::visit(WhileStatement) (lines 329-377), parametric in the recursive
body encoder: create header, body and after blocks, push the loop
destinations, visit the body first for do-while, emit the condition edges,
encode the body, restore destinations, emit the back edge, havoc at exit if
an unknown call was seen. -/
def encodeWhileGen (isDoWhile : Bool) (whileId condId bodyId : Nat)
    (recB : EncState → EncState) (st : EncState) : EncState :=
  let saved := st.unknownSeen
  let st0 := { st with unknownSeen := false }
  let fb := match st0.curFn with | some f => f.bodyId | none => 0
  let pfx := (if isDoWhile then "do_" else "") ++ "while"
  let ph := createBlockNode st0 whileId (pfx ++ "_header_")
  let hdr := ph.1
  let st1 := ph.2
  let pb := createBlockNode st1 bodyId (pfx ++ "_body_")
  let bodyB := pb.1
  let st2 := pb.2
  let pa := createBlockNode st2 fb ""
  let afterB := pa.1
  let st3 := pa.2
  let outerBreak := st3.breakDest
  let outerContinue := st3.continueDest
  let st4 := { st3 with breakDest := some afterB, continueDest := some hdr }
  let st5 := if isDoWhile then recB st4 else st4
  let st6 := connectBlocks st5 st5.currentBlock
    (.predApp hdr (currentBlockVars st5)) (.boolLit true)
  let st7 := setCurrentBlock st6 hdr none
  let cond := Term.astExpr condId
  let st8 := connectBlocks st7 st7.currentBlock
    (.predApp bodyB (currentBlockVars st7)) cond
  let st9 := connectBlocks st8 st8.currentBlock
    (.predApp afterB (currentBlockVars st8)) (.notT cond)
  let st10 := setCurrentBlock st9 bodyB none
  let st11 := recB st10
  let st12 := { st11 with breakDest := outerBreak, continueDest := outerContinue }
  let st13 := connectBlocks st12 st12.currentBlock
    (.predApp hdr (currentBlockVars st12)) (.boolLit true)
  let st14 := setCurrentBlock st13 afterB none
  let st15 := if st14.unknownSeen then eraseKnowledge st14 else st14
  { st15 with unknownSeen := saved }

mutual

/-- Statement encoder: the CHC visit/endVisit cases for the statement forms
of the restricted AST (if, while/do-while, break, continue, and the
function-call dispatch of CHC::endVisit(FunctionCall)). -/
def encodeStmt (prog : List ContractDef) : Stmt → EncState → EncState
  | .assertS condId callId, st => visitAssert prog st condId callId
  | .callS fid argIds, st => internalFunctionCall prog st fid argIds
  | .unknownS _, st => unknownFunctionCall st
  | .breakS nodeId, st =>
      (match st.breakDest with
        | none => st
        | some d =>
            let st₁ := connectBlocks st st.currentBlock
              (.predApp d (currentBlockVars st)) (.boolLit true)
            let g := createBlockNode st₁ nodeId "break_ghost_"
            { g.2 with currentBlock := .predApp g.1 (currentBlockVars g.2) })
  | .continueS nodeId, st =>
      (match st.continueDest with
        | none => st
        | some d =>
            let st₁ := connectBlocks st st.currentBlock
              (.predApp d (currentBlockVars st)) (.boolLit true)
            let g := createBlockNode st₁ nodeId "continue_ghost_"
            { g.2 with currentBlock := .predApp g.1 (currentBlockVars g.2) })
  | .ifS ifId condId thenId thenB elseInfo, st =>
      encodeIfGen ifId condId thenId (elseInfo.map (fun e => e.1))
        (fun σ => encodeStmts prog thenB σ)
        (match elseInfo with
          | some (_, eb) => fun σ => encodeStmts prog eb σ
          | none => fun σ => σ) st
  | .whileS isDoWhile whileId condId bodyId body, st =>
      encodeWhileGen isDoWhile whileId condId bodyId
        (fun σ => encodeStmts prog body σ) st

/-- Sequential encoding of a statement list (the AST body traversal). -/
def encodeStmts (prog : List ContractDef) : List Stmt → EncState → EncState
  | [], st => st
  | s :: ss, st => encodeStmts prog ss (encodeStmt prog s st)

end

/-! ## Function-level encoding -/

/-- Modelled from the spec: SMTEncoder::initFunction is not under src/.
Per the spec, at function entry each declared variable of the function is
made known to the context and starts at SSA index 0. -/
def initFunction (st : EncState) (f : FuncDef) : EncState :=
  let vs := f.params ++ f.rets ++ f.locals
  let fresh := vs.filter (fun v => ¬ st.knownVars.any (fun w => w.vn = v.vn))
  { st with knownVars := st.knownVars ++ fresh
            ssa := setAllIdx st.ssa (namesOf vs) 0 }

/-- CHC::shouldVisit (lines 612-615). -/
def shouldVisit (f : FuncDef) : Bool := f.implemented

/-- CHC::visit(FunctionDefinition), the body traversal, and
CHC::endVisit(FunctionDefinition) (lines 182-279), for a function visited
from the contract level (m_currentFunction not yet set).  Unimplemented
functions are skipped by shouldVisit. -/
def encodeFunction (prog : List ContractDef) (st : EncState) (f : FuncDef) :
    EncState :=
  if ¬ shouldVisit f then st
  else match st.curFn with
    | some _ => st
    | none =>
      let st₁ := initFunction { st with curFn := some f } f
      let pe := createBlockFn st₁ f
      let entryB := pe.1
      let st₂ := pe.2
      let pb := createBlockNode st₂ f.bodyId ""
      let bodyB := pb.1
      let st₃ := pb.2
      let funcPred := Term.predApp entryB (currentFunctionVars st₃)
      let bodyPred := Term.predApp bodyB (currentBlockVars st₃)
      let st₄ := if f.isCtor then connectBlocks st₃ st₃.currentBlock funcPred (.boolLit true)
        else connectBlocks st₃ genesisApp funcPred (.boolLit true)
      let st₅ := addAssertion st₄ (.eqT (.errVar st₄.errIdx) (.intLit 0))
      let st₆ := st₅.stVars.foldl
        (fun s v => addAssertion s (.eqT (.svar v.vn 0) (.svar v.vn (s.ssa v.vn)))) st₅
      let st₇ := f.params.foldl
        (fun s v => addAssertion s (.eqT (.svar v.vn 0) (.svar v.vn (s.ssa v.vn)))) st₆
      let st₈ := connectBlocks st₇ funcPred bodyPred (.boolLit true)
      let st₉ := setCurrentBlock st₈ bodyB none
      let st₁₀ := encodeStmts prog f.body st₉
      if f.isCtor then
        let sfx := match st₁₀.curContract with
          | some c => c.cname ++ "_" ++ natStr c.cid
          | none => ""
        let pc := createSymbolicBlock st₁₀ .ctorExit ("constructor_exit_" ++ sfx)
        let ce := pc.1
        let s₁ := pc.2
        let s₂ := connectBlocks s₁ s₁.currentBlock
          (.predApp ce (Term.errVar s₁.errIdx :: currentStateVars s₁)) (.boolLit true)
        let s₃ := clearIndices s₂ (some f)
        let stateExprs := Term.errVar s₃.errIdx :: currentStateVars s₃
        let s₄ := setCurrentBlock s₃ ce (some stateExprs)
        { s₄ with curFn := none }
      else
        let aErr := Term.errVar st₁₀.errIdx
        let sum := funcSummaryApp prog st₁₀ f
        let s₁ := connectBlocks st₁₀ st₁₀.currentBlock sum (.boolLit true)
        let iface := ifaceCurrent s₁
        let stateExprs := initialStateVars s₁
        let s₂ := setCurrentBlock s₁ (lookupIface s₁ (curCid s₁)) (some stateExprs)
        let s₃ := if f.isPublic then
            let s' := { s₂ with targets := s₂.targets ++ [⟨f.fid, s₂.currentBlock, sum, aErr⟩] }
            connectBlocks s' s'.currentBlock iface (.andT sum (.eqT aErr (.intLit 0)))
          else s₂
        { s₃ with curFn := none }

/-! ## Contract-level encoding -/

/-- CHC::visit(ContractDefinition) (lines 122-147): reset the contract
analysis state, set up state variables, clear indices, create the error,
constructor-summary and implicit-constructor predicates, and set the
current block to the interface over the current state. -/
def visitContract (st : EncState) (c : ContractDef) : EncState :=
  let st₁ := { st with stVars := [], unknownSeen := false, breakDest := none,
                       continueDest := none, errIdx := 0, curContract := some c }
  let st₂ := { st₁ with stVars := c.stateVars }
  let st₃ := clearIndices st₂ none
  let sfx := c.cname ++ "_" ++ natStr c.cid
  let st₄ := (createSymbolicBlock st₃ .errorP ("error_" ++ sfx)).2
  let st₅ := (createSymbolicBlock st₄ .ctorSummary ("summary_constructor_" ++ sfx)).2
  let st₆ := (createSymbolicBlock st₅ .implicitCtor ("implicit_constructor_" ++ sfx)).2
  let st₇ := { st₆ with errorPredName := "error_" ++ sfx }
  let stateExprs := currentStateVars st₇
  setCurrentBlock st₇ (lookupIface st₇ c.cid) (some stateExprs)

/-- CHC::endVisit(ContractDefinition) (lines 149-180): zero-initialise the
state at index 0, connect genesis to the implicit constructor, encode the
explicit constructor if present (the inlined constructor hierarchy is empty
without inheritance), connect to the constructor summary, register the
contract-level verification target and connect the summary to the interface
guarded by error = 0. -/
def endVisitContract (prog : List ContractDef) (st : EncState)
    (c : ContractDef) : EncState :=
  let st₁ := st.stVars.foldl
    (fun s v =>
      let s' := { s with ssa := updSSA s.ssa v.vn 0 }
      let s'' := addAssertion s' (.eqT (.svar v.vn 0) (.intLit 0))
      { s'' with ssa := bumpVar s''.ssa v.vn })
    st
  let icApp := Term.predApp ⟨.implicitCtor, "implicit_constructor_" ++ c.cname ++ "_" ++ natStr c.cid⟩
    (initialStateVars st₁)
  let st₂ := connectBlocks st₁ genesisApp icApp (.boolLit true)
  let st₃ := { st₂ with currentBlock := icApp }
  let st₄ := addAssertion st₃ (.eqT (.errVar st₃.errIdx) (.intLit 0))
  let st₅ := match c.funcs.find? (fun f => f.isCtor) with
    | some ctor => encodeFunction prog st₄ ctor
    | none => st₄
  let sumApp := ctorSummaryApp st₅
  let st₆ := connectBlocks st₅ st₅.currentBlock sumApp (.boolLit true)
  let st₇ := clearIndices st₆ none
  let stateExprs := Term.errVar st₇.errIdx :: currentStateVars st₇
  let st₈ := setCurrentBlock st₇ ⟨.ctorSummary, ctorSummaryName c⟩ (some stateExprs)
  let st₉ := { st₈ with targets := st₈.targets ++ [⟨c.cid, st₈.currentBlock, .boolLit true, .errVar st₈.errIdx⟩] }
  connectBlocks st₉ st₉.currentBlock (ifaceCurrent st₉) (.eqT (.errVar st₉.errIdx) (.intLit 0))

/-- Whole-contract traversal: visit, the member traversal of the base
SMTEncoder (which visits every non-constructor function; modelled from the
spec since SMTEncoder.cpp is not under src/), then endVisit. -/
def encodeContract (prog : List ContractDef) (st : EncState)
    (c : ContractDef) : EncState :=
  let st₁ := visitContract st c
  let st₂ := (c.funcs.filter (fun f => ¬ f.isCtor)).foldl (encodeFunction prog) st₁
  endVisitContract prog st₂ c

/-- Per-function step of defineInterfacesAndSummaries: create the summary
block of a defined function (implemented or not) and record it in
m_summaries keyed by (contract, function). -/
def declareSummary (c : ContractDef) (t : EncState) (f : FuncDef) : EncState :=
  let b := createSummaryBlock t f c
  { b.2 with summariesM := b.2.summariesM ++ [((c.cid, f.fid), b.1)] }

/-- Per-contract step of defineInterfacesAndSummaries: create the interface
predicate, create any unknown state variables, and declare the summary of
every defined function. -/
def declareContract (s : EncState) (c : ContractDef) : EncState :=
  let b := createSymbolicBlock s .interfaceP
    ("interface_" ++ c.cname ++ "_" ++ natStr c.cid)
  let s₂ := { b.2 with interfacesM := b.2.interfacesM ++ [(c.cid, b.1)] }
  let fresh := c.stateVars.filter
    (fun v => ¬ s₂.knownVars.any (fun w => w.vn = v.vn))
  let s₃ := { s₂ with knownVars := s₂.knownVars ++ fresh }
  c.funcs.foldl (declareSummary c) s₃

/-- CHC::defineInterfacesAndSummaries (lines 754-768): pre-declare the
interface of every contract, create its state variables, and create a
summary block for every defined function (implemented or not). -/
def defineInterfacesAndSummaries (prog : List ContractDef) (st : EncState) :
    EncState :=
  prog.foldl declareContract st

/-! ## Transaction assertions (CHC::transactionAssertions, lines 633-642) -/

/-- Successors of a node in the recorded call graph. -/
def cgSucc (cg : List (Nat × Nat)) (x : Nat) : List Nat :=
  (cg.filter (fun e => e.1 = x)).map (fun e => e.2)

/-- Frontier of unvisited successors of the visited set. -/
def stepFrontier (cg : List (Nat × Nat)) (visited : List Nat) : List Nat :=
  ((visited.flatMap (cgSucc cg)).filter (fun w => ¬ visited.contains w)).dedup

/-- Modelled from the spec: the BreadthFirstSearch helper of libsolutil is
not under src/.  Per the spec, transactionAssertions is a breadth-first
traversal over the call graph starting at the scope; this saturates the
visited set level by level, with enough fuel to reach the fixed point. -/
def bfsAux (cg : List (Nat × Nat)) : Nat → List Nat → List Nat
  | 0, visited => visited
  | fuel + 1, visited =>
      let nxt := stepFrontier cg visited
      if nxt.isEmpty then visited else bfsAux cg fuel (visited ++ nxt)

/-- Set of call-graph nodes reachable from the root. -/
def reachList (cg : List (Nat × Nat)) (root : Nat) : List Nat :=
  bfsAux cg ((cg.map Prod.snd).length + 1) [root]

/-- CHC::transactionAssertions: the union over every reachable function of
its recorded assertion set. -/
def transactionAssertions (cg : List (Nat × Nat)) (fa : List (Nat × Nat))
    (root : Nat) : List Nat :=
  (reachList cg root).flatMap (fun f => (fa.filter (fun e => e.1 = f)).map (fun e => e.2))

/-! ## Driver (CHC::analyze, lines 56-112, and CHC::query, lines 976-997) -/

/-- Backend answers, mirroring smt::CheckResult. -/
inductive CheckResult where
  | SATISFIABLE
  | UNSATISFIABLE
  | UNKNOWN
  | CONFLICTING
  | ERROR
  deriving DecidableEq, Repr

/-- Warnings emitted by CHC::query for one backend answer: only
CONFLICTING and ERROR report anything. -/
def queryWarn : CheckResult → List String
  | .CONFLICTING => ["At least two SMT solvers provided conflicting answers. Results might not be sound."]
  | .ERROR => ["Error trying to invoke SMT solver."]
  | _ => []

/-- CHC::createErrorBlock: refresh the error predicate and re-register it. -/
def createErrorBlock (st : EncState) : EncState :=
  { st with registered := st.registered ++ [⟨st.errorPredName, .errorP, st.blockCounter⟩] }

/-- Application of the (nullary) error predicate. -/
def errorApp (st : EncState) : Term :=
  .predApp ⟨.errorP, st.errorPredName⟩ []

/-- Result of a whole analysis: the final encoder state, the safe-assertion
set and the reporter warnings. -/
structure AnalysisOut where
  final : EncState
  safe : List Nat
  warns : List String

/-- The per-target part of the query loop in CHC::analyze: for every
assertion gathered for the target, refresh the error predicate, connect the
target to it guarded by `constraints ∧ errorId = assertion id`, query the
backend, and record the assertion as safe exactly on UNSATISFIABLE. -/
def runTarget (backend : Nat → Nat → CheckResult) (acc : AnalysisOut)
    (t : VTarget) : AnalysisOut :=
  (transactionAssertions acc.final.callGraph acc.final.funcAsserts t.scopeId).foldl
    (fun a (aId : Nat) =>
      let st₁ := createErrorBlock a.final
      let st₂ := connectBlocks st₁ t.value (errorApp st₁)
        (.andT t.constraints (.eqT t.errorId (.intLit (aId : Int))))
      let r := backend t.scopeId aId
      { final := st₂
        safe := if r = .UNSATISFIABLE then a.safe ++ [aId] else a.safe
        warns := a.warns ++ queryWarn r })
    acc

/-- CHC::analyze: create and assert genesis, pre-declare interfaces and
summaries, encode every contract, then run one query per (target,
assertion) pair, classifying the results.  The backend oracle is keyed by
the target scope and the assertion id. -/
def analyze (prog : List ContractDef) (backend : Nat → Nat → CheckResult) :
    AnalysisOut :=
  let st₁ := (createSymbolicBlock initState .genesis "genesis").2
  let st₂ := { st₁ with rules := st₁.rules ++ [⟨.boolLit true, [], .boolLit true, genesisApp⟩] }
  let st₃ := defineInterfacesAndSummaries prog st₂
  let st₄ := prog.foldl (encodeContract prog) st₃
  st₄.targets.foldl (runTarget backend) ⟨st₄, [], []⟩

/-! ## Pointwise characterisation of the SSA folds -/

theorem updSSA_apply (σ : String → Nat) (x : String) (k : Nat) (y : String) :
    updSSA σ x k y = if y = x then k else σ y := rfl

theorem bumpAll_count (xs : List String) (σ : String → Nat) (y : String) :
    bumpAll σ xs y = σ y + xs.count y := by
  induction xs generalizing σ with
  | nil => simp [bumpAll]
  | cons x xs ih =>
      show bumpAll (bumpVar σ x) xs y = _
      rw [ih]
      by_cases h : y = x
      · subst h
        simp [bumpVar, updSSA, List.count_cons]
        omega
      · have hx : (x == y) = false := by
          simp [beq_iff_eq]; exact fun hxy => h hxy.symm
        simp [bumpVar, updSSA, h, List.count_cons, hx]

theorem setAllIdx_apply (xs : List String) (σ : String → Nat) (k : Nat)
    (y : String) : setAllIdx σ xs k y = if y ∈ xs then k else σ y := by
  induction xs generalizing σ with
  | nil => simp [setAllIdx]
  | cons x xs ih =>
      show setAllIdx (updSSA σ x k) xs k y = _
      rw [ih]
      by_cases hm : y ∈ xs
      · simp [hm]
      · by_cases h : y = x <;> simp [hm, h, updSSA]

theorem havocRefs_count (vs : List SVar) (σ : String → Nat) (x : String) :
    havocRefs vs σ x =
      σ x + (vs.filter (fun v => v.refOrMapping && v.vn == x)).length := by
  induction vs generalizing σ with
  | nil => simp [havocRefs]
  | cons v vs ih =>
      show havocRefs vs (if v.refOrMapping then bumpVar σ v.vn else σ) x = _
      rw [ih]
      by_cases hr : v.refOrMapping
      · by_cases hx : x = v.vn
        · subst hx
          simp [hr, bumpVar, updSSA]
          omega
        · have hx' : (v.vn == x) = false := by
            simp [beq_iff_eq]; exact fun e => hx e.symm
          simp [hr, bumpVar, updSSA, hx, hx']
      · have hr' : v.refOrMapping = false := by simpa using hr
        simp [hr', List.filter_cons]

/-! ## Example program used by the concrete witnesses -/

/-- Example value-typed state variable. -/
def exS : SVar := ⟨"s", false⟩

/-- Example reference-typed state variable. -/
def exM : SVar := ⟨"m", true⟩

/-- Example public function with a single assert statement. -/
def exF : FuncDef :=
  { fid := 2, fname := "f", isCtor := false, isPublic := true,
    implemented := true, params := [], rets := [], locals := [],
    bodyId := 3, body := [.assertS 4 5] }

/-- Example contract holding exS, exM and exF. -/
def exC : ContractDef :=
  { cid := 1, cname := "C", isLib := false, stateVars := [exS, exM],
    funcs := [exF] }

/-- Example encoder state: inside exF of exC. -/
def exSt : EncState :=
  { initState with curFn := some exF, curContract := some exC,
                   stVars := [exS, exM], knownVars := [exS, exM] }

/-! ## C2: encoding of assert(cond) -/

/-- C2: for every encoded assert call site the encoder bumps the error SSA
variable, emits exactly one edge from the current block to the enclosing
summary (the contract's constructor summary inside a constructor, the
function's summary otherwise) guarded by the current path condition, the
negation of the condition, and the new error value being the call site's
AST id; afterwards it constrains the new error value to equal the error
value from before the bump, and records the call site in the
function-assertions map. -/
theorem assert_encoding (prog : List ContractDef) (st : EncState)
    (condId callId : Nat) (f : FuncDef) (hf : st.curFn = some f) :
    (encodeStmt prog (.assertS condId callId) st).errIdx = st.errIdx + 1 ∧
    (encodeStmt prog (.assertS condId callId) st).rules = st.rules ++
      [⟨st.currentBlock, st.ctxA,
        .andT (.andT st.pathCond (.notT (.astExpr condId)))
          (.eqT (.errVar (st.errIdx + 1)) (.intLit (callId : Int))),
        enclosingSummary prog
          { st with funcAsserts := st.funcAsserts ++ [(scopeIdOf st, callId)],
                    errIdx := st.errIdx + 1 }⟩] ∧
    (f.isCtor = true →
      enclosingSummary prog
          { st with funcAsserts := st.funcAsserts ++ [(scopeIdOf st, callId)],
                    errIdx := st.errIdx + 1 } =
        ctorSummaryApp { st with errIdx := st.errIdx + 1 }) ∧
    (f.isCtor = false →
      enclosingSummary prog
          { st with funcAsserts := st.funcAsserts ++ [(scopeIdOf st, callId)],
                    errIdx := st.errIdx + 1 } =
        funcSummaryApp prog { st with errIdx := st.errIdx + 1 } f) ∧
    (encodeStmt prog (.assertS condId callId) st).ctxA = st.ctxA ++
      [.eqT (.errVar (st.errIdx + 1)) (.errVar st.errIdx)] ∧
    (encodeStmt prog (.assertS condId callId) st).funcAsserts =
      st.funcAsserts ++ [(scopeIdOf st, callId)] := by
  refine ⟨rfl, rfl, ?_, ?_, rfl, rfl⟩
  · intro hc
    simp [enclosingSummary, ctorSummaryApp, currentStateVars, hf, hc]
  · intro hc
    simp [enclosingSummary, funcSummaryApp, hf, hc, initialStateVars,
      currentStateVars, currentVals, lookupSummary, curCid]

/-- C2 witness: the theorem applied to the example state. -/
theorem assert_encoding_witness :
    (encodeStmt [] (.assertS 4 5) exSt).ctxA = exSt.ctxA ++
      [.eqT (.errVar 1) (.errVar 0)] :=
  (assert_encoding [] exSt 4 5 exF rfl).2.2.2.2.1

/-! ## C9: havoc on unknown function calls -/

/-- C9: encoding an unknown function call performs exactly the
eraseKnowledge havoc (the same function invoked again at the exit of an if
or loop that saw an unknown call): it bumps the SSA index of every known
reference- or mapping-typed variable and leaves every variable whose name
only stands for value-typed variables (in particular every value-typed
state variable) unchanged, and sets the unknown-call flag. -/
theorem unknown_call_havoc (prog : List ContractDef) (st : EncState)
    (nodeId : Nat) (v : SVar) :
    ((encodeStmt prog (.unknownS nodeId) st).ssa = (eraseKnowledge st).ssa) ∧
    (v.refOrMapping = true → (v ∈ st.stVars ∨ v ∈ st.knownVars) →
      st.ssa v.vn < (encodeStmt prog (.unknownS nodeId) st).ssa v.vn) ∧
    ((∀ w, (w ∈ st.stVars ∨ w ∈ st.knownVars) → w.vn = v.vn →
        w.refOrMapping = false) →
      (encodeStmt prog (.unknownS nodeId) st).ssa v.vn = st.ssa v.vn) ∧
    (encodeStmt prog (.unknownS nodeId) st).unknownSeen = true := by
  have hssa : (encodeStmt prog (.unknownS nodeId) st).ssa =
      havocRefs st.knownVars (havocRefs st.stVars st.ssa) := rfl
  refine ⟨rfl, ?_, ?_, rfl⟩
  · intro hr hmem
    rw [hssa, havocRefs_count, havocRefs_count]
    rcases hmem with hmem | hmem
    · have : 0 < (st.stVars.filter (fun w => w.refOrMapping && w.vn == v.vn)).length := by
        apply List.length_pos.mpr
        intro hnil
        have := List.filter_eq_nil_iff.mp hnil v hmem
        simp [hr] at this
      omega
    · have : 0 < (st.knownVars.filter (fun w => w.refOrMapping && w.vn == v.vn)).length := by
        apply List.length_pos.mpr
        intro hnil
        have := List.filter_eq_nil_iff.mp hnil v hmem
        simp [hr] at this
      omega
  · intro hval
    rw [hssa, havocRefs_count, havocRefs_count]
    have h₁ : (st.stVars.filter (fun w => w.refOrMapping && w.vn == v.vn)) = [] := by
      apply List.filter_eq_nil_iff.mpr
      intro w hw
      simp only [Bool.and_eq_true, beq_iff_eq, not_and]
      intro hr hvn
      exact absurd (hval w (Or.inl hw) hvn) (by simp [hr])
    have h₂ : (st.knownVars.filter (fun w => w.refOrMapping && w.vn == v.vn)) = [] := by
      apply List.filter_eq_nil_iff.mpr
      intro w hw
      simp only [Bool.and_eq_true, beq_iff_eq, not_and]
      intro hr hvn
      exact absurd (hval w (Or.inr hw) hvn) (by simp [hr])
    simp [h₁, h₂]

/-- C9 witness: the theorem applied at the example state, showing the
reference-typed variable m is bumped and the value-typed state variable s
is unchanged. -/
theorem unknown_call_havoc_witness :
    (exSt.ssa "m" < (encodeStmt [] (.unknownS 9) exSt).ssa "m") ∧
    ((encodeStmt [] (.unknownS 9) exSt).ssa "s" = exSt.ssa "s") := by
  constructor
  · exact (unknown_call_havoc [] exSt 9 exM).2.1 rfl
      (Or.inl (by simp [exSt, exM, exS, initState]))
  · exact (unknown_call_havoc [] exSt 9 exS).2.2.1
      (by intro w hw hvn
          rcases hw with hw | hw <;>
            simp [exSt, exM, exS, initState] at hw <;>
            rcases hw with h | h <;> subst h <;>
              first
                | rfl
                | (simp [exM, exS] at hvn ⊢))

/-! ## C10: unimplemented functions are skipped but still get summaries -/

theorem foldl_declareSummary_mono (c : ContractDef) (fs : List FuncDef)
    (t : EncState) :
    ∃ d, (fs.foldl (declareSummary c) t).summariesM = t.summariesM ++ d := by
  induction fs generalizing t with
  | nil => exact ⟨[], by simp⟩
  | cons f fs ih =>
      obtain ⟨d, hd⟩ := ih (declareSummary c t f)
      refine ⟨((c.cid, f.fid), (createSummaryBlock t f c).1) :: d, ?_⟩
      rw [List.foldl_cons, hd]
      show (t.summariesM ++ [((c.cid, f.fid), (createSummaryBlock t f c).1)]) ++ d = _
      simp

theorem foldl_declareSummary_mem (c : ContractDef) (fs : List FuncDef)
    (t : EncState) (f : FuncDef) (hf : f ∈ fs) :
    ∃ p, ((c.cid, f.fid), p) ∈ (fs.foldl (declareSummary c) t).summariesM := by
  induction fs generalizing t with
  | nil => cases hf
  | cons g fs ih =>
      rcases List.mem_cons.mp hf with heq | hmem
      · subst heq
        obtain ⟨d, hd⟩ := foldl_declareSummary_mono c fs (declareSummary c t f)
        rw [List.foldl_cons, hd]
        refine ⟨(createSummaryBlock t f c).1, List.mem_append_left _ ?_⟩
        show _ ∈ t.summariesM ++ [((c.cid, f.fid), (createSummaryBlock t f c).1)]
        exact List.mem_append_right _ (List.mem_singleton.mpr rfl)
      · exact ih (declareSummary c t g) hmem

theorem declareContract_mono (s : EncState) (c : ContractDef) :
    ∃ d, (declareContract s c).summariesM = s.summariesM ++ d := by
  obtain ⟨d, hd⟩ := foldl_declareSummary_mono c c.funcs
    { s with
      registered := s.registered ++
        [⟨"interface_" ++ c.cname ++ "_" ++ natStr c.cid, .interfaceP, s.blockCounter⟩],
      interfacesM := s.interfacesM ++
        [(c.cid, ⟨.interfaceP, "interface_" ++ c.cname ++ "_" ++ natStr c.cid⟩)],
      knownVars := s.knownVars ++ c.stateVars.filter
        (fun v => ¬ s.knownVars.any (fun w => w.vn = v.vn)) }
  exact ⟨d, hd⟩

theorem foldl_declareContract_mono (cs : List ContractDef) (s : EncState) :
    ∃ d, (cs.foldl declareContract s).summariesM = s.summariesM ++ d := by
  induction cs generalizing s with
  | nil => exact ⟨[], by simp⟩
  | cons c cs ih =>
      obtain ⟨d₁, hd₁⟩ := ih (declareContract s c)
      obtain ⟨d₂, hd₂⟩ := declareContract_mono s c
      exact ⟨d₂ ++ d₁, by rw [List.foldl_cons, hd₁, hd₂, List.append_assoc]⟩

theorem declareContract_mem (s : EncState) (c : ContractDef) (f : FuncDef)
    (hf : f ∈ c.funcs) :
    ∃ p, ((c.cid, f.fid), p) ∈ (declareContract s c).summariesM := by
  show ∃ p, ((c.cid, f.fid), p) ∈ (c.funcs.foldl (declareSummary c) _).summariesM
  exact foldl_declareSummary_mem c c.funcs _ f hf

theorem defineIS_summary_mem (prog : List ContractDef) (st : EncState)
    (c : ContractDef) (f : FuncDef) (hc : c ∈ prog) (hf : f ∈ c.funcs) :
    ∃ p, ((c.cid, f.fid), p) ∈
      (defineInterfacesAndSummaries prog st).summariesM := by
  induction prog generalizing st with
  | nil => cases hc
  | cons c' cs ih =>
      rcases List.mem_cons.mp hc with heq | hmem
      · subst heq
        obtain ⟨p, hp⟩ := declareContract_mem st c f hf
        obtain ⟨q, hq⟩ := foldl_declareContract_mono cs (declareContract st c)
        refine ⟨p, ?_⟩
        show _ ∈ (cs.foldl declareContract (declareContract st c)).summariesM
        rw [hq]
        exact List.mem_append_left _ hp
      · exact ih (declareContract st c') hmem

/-- Example unimplemented function. -/
def exG : FuncDef :=
  { fid := 7, fname := "g", isCtor := false, isPublic := true,
    implemented := false, params := [], rets := [], locals := [],
    bodyId := 8, body := [] }

/-- Example contract holding the unimplemented exG. -/
def exD : ContractDef :=
  { cid := 6, cname := "D", isLib := false, stateVars := [], funcs := [exG] }

/-- C10: a function definition that is not implemented is skipped entirely
by the function visitor — the encoder state is returned unchanged, so no
entry or body block, no edge and no verification target is produced — yet
defineInterfacesAndSummaries still declares a summary predicate for it. -/
theorem unimplemented_function_skipped (prog : List ContractDef)
    (st st₀ : EncState) (c : ContractDef) (f : FuncDef)
    (h : f.implemented = false) (hc : c ∈ prog) (hf : f ∈ c.funcs) :
    encodeFunction prog st f = st ∧
    ∃ p, ((c.cid, f.fid), p) ∈
      (defineInterfacesAndSummaries prog st₀).summariesM := by
  refine ⟨?_, defineIS_summary_mem prog st₀ c f hc hf⟩
  simp [encodeFunction, shouldVisit, h]

/-- C10 witness: the theorem applied to the example program. -/
theorem unimplemented_function_skipped_witness :
    encodeFunction [exD] exSt exG = exSt ∧
    ∃ p, ((exD.cid, exG.fid), p) ∈
      (defineInterfacesAndSummaries [exD] initState).summariesM :=
  unimplemented_function_skipped [exD] exSt initState exD exG rfl
    (List.mem_singleton.mpr rfl) (List.mem_singleton.mpr rfl)

/-! ## C3: pre/post state snapshots in call summaries -/

theorem bumpOrCreateRets_fields (rets : List SVar) (st : EncState) :
    (bumpOrCreateRets st rets).summariesM = st.summariesM ∧
    (bumpOrCreateRets st rets).stVars = st.stVars ∧
    (bumpOrCreateRets st rets).curContract = st.curContract ∧
    (bumpOrCreateRets st rets).errIdx = st.errIdx ∧
    (bumpOrCreateRets st rets).rules = st.rules ∧
    (bumpOrCreateRets st rets).registered = st.registered ∧
    (bumpOrCreateRets st rets).blockCounter = st.blockCounter ∧
    (bumpOrCreateRets st rets).breakDest = st.breakDest ∧
    (bumpOrCreateRets st rets).continueDest = st.continueDest := by
  induction rets generalizing st with
  | nil => exact ⟨rfl, rfl, rfl, rfl, rfl, rfl, rfl, rfl, rfl⟩
  | cons r rets ih =>
      have hstep : bumpOrCreateRets st (r :: rets) =
          bumpOrCreateRets
            (if st.knownVars.any (fun w => w.vn = r.vn) then
              { st with ssa := bumpVar st.ssa r.vn }
             else { st with knownVars := st.knownVars ++ [r] }) rets := rfl
      rw [hstep]
      by_cases hk : st.knownVars.any (fun w => w.vn = r.vn)
      · rw [if_pos hk]; exact ih _
      · rw [if_neg hk]; exact ih _

theorem bumpOrCreateRets_ssa (rets : List SVar) (st : EncState)
    (hknown : ∀ r ∈ rets, r.vn ∈ namesOf st.knownVars) (x : String) :
    (bumpOrCreateRets st rets).ssa x = st.ssa x + (namesOf rets).count x := by
  induction rets generalizing st with
  | nil => simp [bumpOrCreateRets, namesOf]
  | cons r rets ih =>
      have hr : st.knownVars.any (fun w => w.vn = r.vn) = true := by
        have := hknown r (List.mem_cons_self r rets)
        simp only [namesOf, List.mem_map] at this
        obtain ⟨w, hw, hwe⟩ := this
        exact List.any_eq_true.mpr ⟨w, hw, by simp [hwe]⟩
      have hstep : bumpOrCreateRets st (r :: rets) =
          bumpOrCreateRets
            (if st.knownVars.any (fun w => w.vn = r.vn) then
              { st with ssa := bumpVar st.ssa r.vn }
             else { st with knownVars := st.knownVars ++ [r] }) rets := rfl
      have step : bumpOrCreateRets st (r :: rets) =
          bumpOrCreateRets { st with ssa := bumpVar st.ssa r.vn } rets := by
        rw [hstep, if_pos hr]
      rw [step, ih]
      · by_cases hx : x = r.vn
        · subst hx
          simp [bumpVar, updSSA, namesOf, List.count_cons]
          omega
        · have hx' : (r.vn == x) = false := by
            simp [beq_iff_eq]; exact fun e => hx e.symm
          simp [bumpVar, updSSA, hx, namesOf, List.count_cons, hx']
      · intro q hq
        simpa [namesOf] using hknown q (List.mem_cons_of_mem r hq)

/-- C3: the summary application built by predicate(FunctionCall) uses, for
a library callee, the library's own state variables at SSA index 0 as
pre-state and at SSA index 1 as post-state; for a non-library callee the
pre-state is the calling contract's state at the current SSA indices and
the post-state is that state with every variable bumped once; the return
values are fresh (once-bumped) SSA terms in both cases, and the error
variable is bumped exactly once. -/
theorem call_predicate_states (prog : List ContractDef) (st : EncState)
    (fid : Nat) (argIds : List Nat) (cc : ContractDef) (f : FuncDef)
    (hres : funcCallToDef prog fid = some (cc, f))
    (hnd : (namesOf st.stVars).Nodup)
    (hrnd : (namesOf f.rets).Nodup)
    (hrknown : ∀ r ∈ f.rets, r.vn ∈ namesOf st.knownVars)
    (hdisj : ∀ r ∈ f.rets, r.vn ∉ namesOf st.stVars) :
    (predicateCall prog st fid argIds).1 =
      .predApp
        (if cc.isLib then lookupSummary st cc.cid f.fid
         else lookupSummary st (curCid st) f.fid)
        (Term.errVar (st.errIdx + 1) ::
          ((if cc.isLib then varsAt 0 cc.stateVars else currentStateVars st) ++
            argIds.map Term.astExpr ++
            (if cc.isLib then varsAt 1 cc.stateVars
             else st.stVars.map (fun v => .svar v.vn (st.ssa v.vn + 1))) ++
            f.rets.map (fun r => .svar r.vn (st.ssa r.vn + 1)))) ∧
    (predicateCall prog st fid argIds).2.errIdx = st.errIdx + 1 := by
  have hbs : ∀ (s : EncState), (bumpStateVars s).ssa = bumpAll s.ssa (namesOf s.stVars) :=
    fun s => rfl
  -- names of the intermediate states
  have st₁def : predicateCall prog st fid argIds =
      (let st₁ : EncState := { st with errIdx := st.errIdx + 1 }
       let pre := if cc.isLib then varsAt 0 cc.stateVars else currentStateVars st₁
       let argTerms := argIds.map Term.astExpr
       let st₂ := bumpStateVars st₁
       let post := if cc.isLib then varsAt 1 cc.stateVars else currentStateVars st₂
       let st₃ := bumpOrCreateRets st₂ f.rets
       let retTerms := currentVals st₃ f.rets
       let pid := if cc.isLib then lookupSummary st₃ cc.cid f.fid
         else lookupSummary st₃ (curCid st₃) f.fid
       (.predApp pid (Term.errVar st₁.errIdx :: (pre ++ argTerms ++ post ++ retTerms)), st₃)) := by
    simp [predicateCall, hres]
  rw [st₁def]
  simp only []
  obtain ⟨hsum, hstv, hcc, herr, -⟩ := bumpOrCreateRets_fields f.rets
    (bumpStateVars { st with errIdx := st.errIdx + 1 })
  constructor
  · -- characterise each component
    have hpost : currentStateVars (bumpStateVars { st with errIdx := st.errIdx + 1 }) =
        st.stVars.map (fun v => .svar v.vn (st.ssa v.vn + 1)) := by
      apply List.map_congr_left
      intro v hv
      have : bumpAll st.ssa (namesOf st.stVars) v.vn = st.ssa v.vn + 1 := by
        rw [bumpAll_count]
        have h1 : (namesOf st.stVars).count v.vn = 1 :=
          List.count_eq_one_of_mem hnd (by simp [namesOf]; exact ⟨v, hv, rfl⟩)
        omega
      simpa [bumpStateVars, currentStateVars] using this
    have hret : currentVals (bumpOrCreateRets
          (bumpStateVars { st with errIdx := st.errIdx + 1 }) f.rets) f.rets =
        f.rets.map (fun r => .svar r.vn (st.ssa r.vn + 1)) := by
      apply List.map_congr_left
      intro r hr
      have hk : ∀ q ∈ f.rets, q.vn ∈
          namesOf (bumpStateVars { st with errIdx := st.errIdx + 1 }).knownVars := by
        intro q hq; exact hrknown q hq
      rw [bumpOrCreateRets_ssa f.rets _ hk]
      have hb : (bumpStateVars { st with errIdx := st.errIdx + 1 }).ssa r.vn =
          st.ssa r.vn := by
        rw [hbs, bumpAll_count]
        have h0 : (namesOf st.stVars).count r.vn = 0 :=
          List.count_eq_zero.mpr (hdisj r hr)
        simp [h0]
      have h1 : (namesOf f.rets).count r.vn = 1 :=
        List.count_eq_one_of_mem hrnd (by simp [namesOf]; exact ⟨r, hr, rfl⟩)
      rw [hb, h1]
    have hlk : ∀ a b, lookupSummary (bumpOrCreateRets
          (bumpStateVars { st with errIdx := st.errIdx + 1 }) f.rets) a b =
        lookupSummary st a b := by
      intro a b
      simp only [lookupSummary]
      rw [hsum]
      rfl
    have hcid : curCid (bumpOrCreateRets
          (bumpStateVars { st with errIdx := st.errIdx + 1 }) f.rets) = curCid st := by
      simp only [curCid]
      rw [hcc]
      rfl
    by_cases hl : cc.isLib
    · simp [hl, hret, hlk]
    · simp [hl, hret, hlk, hcid, hpost]
      rfl
  · rw [herr]
    rfl

/-- Example library function with one return parameter. -/
def exLF : FuncDef :=
  { fid := 11, fname := "lf", isCtor := false, isPublic := true,
    implemented := true, params := [], rets := [⟨"r0", false⟩], locals := [],
    bodyId := 12, body := [] }

/-- Example library contract. -/
def exL : ContractDef :=
  { cid := 10, cname := "L", isLib := true, stateVars := [⟨"lv", false⟩],
    funcs := [exLF] }

/-- Example state where the return variable of exLF is known. -/
def exStL : EncState :=
  { exSt with knownVars := [exS, exM, ⟨"r0", false⟩] }

/-- C3 witness: the theorem applied to a concrete library call. -/
theorem call_predicate_states_witness :
    (predicateCall [exL] exStL 11 [42]).2.errIdx = exStL.errIdx + 1 :=
  (call_predicate_states [exL] exStL 11 [42] exL exLF rfl
    (by decide) (by decide)
    (by intro r hr
        simp [exLF] at hr
        subst hr
        decide)
    (by intro r hr
        simp [exLF] at hr
        subst hr
        decide)).2

/-! ## C7: transactionAssertions and call-graph reachability -/

/-- Reachability through zero or more recorded call-graph edges. -/
def Reach (cg : List (Nat × Nat)) (root f : Nat) : Prop :=
  Relation.ReflTransGen (fun x y => (x, y) ∈ cg) root f

/-- A node list closed under the call graph. -/
def cgClosed (cg : List (Nat × Nat)) (s : List Nat) : Prop :=
  ∀ v ∈ s, ∀ w, (v, w) ∈ cg → w ∈ s

theorem assocAll_mem (l : List (Nat × Nat)) (x y : Nat) :
    y ∈ (l.filter (fun e => e.1 = x)).map (fun e => e.2) ↔ (x, y) ∈ l := by
  constructor
  · intro h
    obtain ⟨e, he, hey⟩ := List.mem_map.mp h
    obtain ⟨hel, hex⟩ := List.mem_filter.mp he
    have hx : e.1 = x := by simpa using hex
    have : e = (x, y) := by
      cases e
      simp at hx hey ⊢
      exact ⟨hx, hey⟩
    rwa [this] at hel
  · intro h
    exact List.mem_map.mpr ⟨(x, y), List.mem_filter.mpr ⟨h, by simp⟩, rfl⟩

theorem cgSucc_mem (cg : List (Nat × Nat)) (v w : Nat) :
    w ∈ cgSucc cg v ↔ (v, w) ∈ cg := assocAll_mem cg v w

theorem stepFrontier_mem (cg : List (Nat × Nat)) (visited : List Nat) (w : Nat) :
    w ∈ stepFrontier cg visited ↔
      (∃ v ∈ visited, (v, w) ∈ cg) ∧ w ∉ visited := by
  simp only [stepFrontier, List.mem_dedup, List.mem_filter, List.mem_flatMap]
  constructor
  · rintro ⟨⟨v, hv, hw⟩, hn⟩
    refine ⟨⟨v, hv, (cgSucc_mem cg v w).mp hw⟩, by simpa using hn⟩
  · rintro ⟨⟨v, hv, hw⟩, hn⟩
    exact ⟨⟨v, hv, (cgSucc_mem cg v w).mpr hw⟩, by simpa using hn⟩

theorem bfsAux_subset (cg : List (Nat × Nat)) :
    ∀ (fuel : Nat) (visited : List Nat) (v : Nat), v ∈ visited →
      v ∈ bfsAux cg fuel visited := by
  intro fuel
  induction fuel with
  | zero => intro visited v hv; exact hv
  | succ fuel ih =>
      intro visited v hv
      rw [bfsAux]
      by_cases he : (stepFrontier cg visited).isEmpty
      · rw [if_pos he]; exact hv
      · rw [if_neg he]
        exact ih _ v (List.mem_append_left _ hv)

theorem bfsAux_sound (cg : List (Nat × Nat)) (root : Nat) :
    ∀ (fuel : Nat) (visited : List Nat),
      (∀ v ∈ visited, Reach cg root v) →
      ∀ v ∈ bfsAux cg fuel visited, Reach cg root v := by
  intro fuel
  induction fuel with
  | zero => intro visited h v hv; exact h v hv
  | succ fuel ih =>
      intro visited h v hv
      rw [bfsAux] at hv
      by_cases he : (stepFrontier cg visited).isEmpty
      · rw [if_pos he] at hv; exact h v hv
      · rw [if_neg he] at hv
        refine ih _ ?_ v hv
        intro w hw
        rcases List.mem_append.mp hw with hw | hw
        · exact h w hw
        · obtain ⟨⟨u, hu, hedge⟩, _⟩ := (stepFrontier_mem cg visited w).mp hw
          exact Relation.ReflTransGen.tail (h u hu) hedge

theorem bfsAux_closed (cg : List (Nat × Nat)) :
    ∀ (fuel : Nat) (visited : List Nat),
      ((cg.map Prod.snd).toFinset.filter (fun x => x ∉ visited)).card ≤ fuel →
      cgClosed cg (bfsAux cg fuel visited) := by
  intro fuel
  induction fuel with
  | zero =>
      intro visited hm v hv w hw
      show w ∈ visited
      by_contra hnw
      have hwmem : w ∈ (cg.map Prod.snd).toFinset.filter (fun x => x ∉ visited) := by
        refine Finset.mem_filter.mpr ⟨?_, hnw⟩
        exact List.mem_toFinset.mpr (List.mem_map.mpr ⟨(v, w), hw, rfl⟩)
      have := Finset.card_pos.mpr ⟨w, hwmem⟩
      omega
  | succ fuel ih =>
      intro visited hm
      rw [bfsAux]
      by_cases he : (stepFrontier cg visited).isEmpty
      · rw [if_pos he]
        intro v hv w hw
        by_contra hnw
        have hwf : w ∈ stepFrontier cg visited :=
          (stepFrontier_mem cg visited w).mpr ⟨⟨v, hv, hw⟩, hnw⟩
        rw [List.isEmpty_iff.mp he] at hwf
        cases hwf
      · rw [if_neg he]
        apply ih
        obtain ⟨w, hwf⟩ := List.isEmpty_eq_false_iff_exists_mem.mp (by simpa using he)
        obtain ⟨⟨u, _, hedge⟩, hnw⟩ := (stepFrontier_mem cg visited w).mp hwf
        have hlt :
            ((cg.map Prod.snd).toFinset.filter
              (fun x => x ∉ visited ++ stepFrontier cg visited)).card <
            ((cg.map Prod.snd).toFinset.filter (fun x => x ∉ visited)).card := by
          apply Finset.card_lt_card
          constructor
          · intro x hx
            obtain ⟨hx₁, hx₂⟩ := Finset.mem_filter.mp hx
            refine Finset.mem_filter.mpr ⟨hx₁, fun hxv => hx₂ (List.mem_append_left _ hxv)⟩
          · intro hsup
            have hwin : w ∈ (cg.map Prod.snd).toFinset.filter (fun x => x ∉ visited) :=
              Finset.mem_filter.mpr
                ⟨List.mem_toFinset.mpr (List.mem_map.mpr ⟨(u, w), hedge, rfl⟩), hnw⟩
            have := Finset.mem_filter.mp (hsup hwin)
            exact this.2 (List.mem_append_right _ hwf)
        omega

theorem mem_reachList (cg : List (Nat × Nat)) (root a : Nat) :
    a ∈ reachList cg root ↔ Reach cg root a := by
  constructor
  · intro h
    refine bfsAux_sound cg root _ [root] ?_ a h
    intro v hv
    have : v = root := by simpa using hv
    rw [this]
    exact Relation.ReflTransGen.refl
  · intro h
    induction h with
    | refl => exact bfsAux_subset cg _ [root] root (by simp)
    | tail _ hedge ih =>
        refine bfsAux_closed cg _ [root] ?_ _ ih _ hedge
        calc ((cg.map Prod.snd).toFinset.filter (fun x => x ∉ [root])).card
            ≤ (cg.map Prod.snd).toFinset.card := Finset.card_filter_le _ _
          _ ≤ (cg.map Prod.snd).length := (cg.map Prod.snd).toFinset_card_le
          _ ≤ (cg.map Prod.snd).length + 1 := Nat.le_succ _

/-- C7: transactionAssertions(scope) is exactly the union, over every
function reachable from the scope through zero or more recorded call-graph
edges, of that function's recorded assertion set; in particular every
assert site recorded for a reachable function is gathered. -/
theorem transaction_assertions_reachable (cg fa : List (Nat × Nat))
    (root a : Nat) :
    (a ∈ transactionAssertions cg fa root ↔
      ∃ f, Reach cg root f ∧ (f, a) ∈ fa) ∧
    (∀ f, Reach cg root f → (f, a) ∈ fa →
      a ∈ transactionAssertions cg fa root) := by
  have hmem : a ∈ transactionAssertions cg fa root ↔
      ∃ f, Reach cg root f ∧ (f, a) ∈ fa := by
    simp only [transactionAssertions, List.mem_flatMap]
    constructor
    · rintro ⟨f, hf, ha⟩
      exact ⟨f, (mem_reachList cg root f).mp hf, (assocAll_mem fa f a).mp ha⟩
    · rintro ⟨f, hf, ha⟩
      exact ⟨f, (mem_reachList cg root f).mpr hf, (assocAll_mem fa f a).mpr ha⟩
  exact ⟨hmem, fun f hr hin => hmem.mpr ⟨f, hr, hin⟩⟩

/-- C7 witness: the theorem applied to a two-edge call graph, showing an
assertion recorded two calls away from the root is gathered. -/
theorem transaction_assertions_reachable_witness :
    9 ∈ transactionAssertions [(1, 2), (2, 3)] [(3, 9)] 1 :=
  (transaction_assertions_reachable [(1, 2), (2, 3)] [(3, 9)] 1 9).2 3
    (Relation.ReflTransGen.tail (b := 2)
      (Relation.ReflTransGen.single (by simp)) (by simp))
    (by simp)

/-! ## Decimal digits: injectivity and absence of underscores -/

theorem natChars_lt (n : Nat) (h : n < 10) : natChars n = [digitChar n] := by
  rw [natChars, dif_pos h]

theorem natChars_ge (n : Nat) (h : ¬ n < 10) :
    natChars n = natChars (n / 10) ++ [digitChar (n % 10)] := by
  rw [natChars, dif_neg h]

theorem digitChar_ne_underscore (a : Nat) : digitChar a ≠ '_' := by
  unfold digitChar
  split <;> decide

theorem digitChar_inj (a b : Nat) (ha : a < 10) (hb : b < 10)
    (h : digitChar a = digitChar b) : a = b := by
  interval_cases a <;> interval_cases b <;> revert h <;> decide

theorem natChars_ne_nil (n : Nat) : natChars n ≠ [] := by
  by_cases h : n < 10
  · rw [natChars_lt n h]; simp
  · rw [natChars_ge n h]; simp

theorem natChars_no_underscore (n : Nat) : ∀ c ∈ natChars n, c ≠ '_' := by
  induction n using Nat.strong_induction_on with
  | _ n ih =>
      intro c hc
      by_cases h : n < 10
      · rw [natChars_lt n h] at hc
        rcases List.mem_singleton.mp hc with rfl
        exact digitChar_ne_underscore n
      · rw [natChars_ge n h] at hc
        rcases List.mem_append.mp hc with hm | hm
        · exact ih (n / 10) (Nat.div_lt_self (by omega) (by omega)) c hm
        · rcases List.mem_singleton.mp hm with rfl
          exact digitChar_ne_underscore (n % 10)

theorem natChars_inj : ∀ a b : Nat, natChars a = natChars b → a = b := by
  intro a
  induction a using Nat.strong_induction_on with
  | _ a ih =>
      intro b h
      by_cases ha : a < 10 <;> by_cases hb : b < 10
      · rw [natChars_lt a ha, natChars_lt b hb] at h
        exact digitChar_inj a b ha hb (List.singleton_inj.mp h)
      · rw [natChars_lt a ha, natChars_ge b hb] at h
        have hlen := congrArg List.length h
        have hne := natChars_ne_nil (b / 10)
        simp at hlen
        cases List.eq_nil_or_concat (natChars (b / 10)) with
        | inl hnil => exact absurd hnil hne
        | inr hcon => obtain ⟨l, x, hx⟩ := hcon; simp [hx] at hlen
      · rw [natChars_ge a ha, natChars_lt b hb] at h
        have hlen := congrArg List.length h
        have hne := natChars_ne_nil (a / 10)
        simp at hlen
        cases List.eq_nil_or_concat (natChars (a / 10)) with
        | inl hnil => exact absurd hnil hne
        | inr hcon => obtain ⟨l, x, hx⟩ := hcon; simp [hx] at hlen
      · rw [natChars_ge a ha, natChars_ge b hb] at h
        rw [← List.concat_eq_append, ← List.concat_eq_append] at h
        obtain ⟨h₁, h₂⟩ := List.concat_inj.mp h
        have hdiv : a / 10 = b / 10 :=
          ih (a / 10) (Nat.div_lt_self (by omega) (by omega)) (b / 10) h₁
        have hmod : a % 10 = b % 10 :=
          digitChar_inj _ _ (Nat.mod_lt _ (by omega)) (Nat.mod_lt _ (by omega)) h₂
        omega

/-- Split a character list at the first underscore: the underscore-free
leading segments and the tails must agree. -/
theorem underscore_split : ∀ (a b r₁ r₂ : List Char),
    (∀ c ∈ a, c ≠ '_') → (∀ c ∈ b, c ≠ '_') →
    a ++ '_' :: r₁ = b ++ '_' :: r₂ → a = b ∧ r₁ = r₂ := by
  intro a
  induction a with
  | nil =>
      intro b r₁ r₂ _ hb h
      cases b with
      | nil => simpa using h
      | cons d b' =>
          simp only [List.nil_append, List.cons_append, List.cons.injEq] at h
          exact absurd h.1.symm (hb d (List.mem_cons_self d b'))
  | cons c a' ih =>
      intro b r₁ r₂ ha hb h
      cases b with
      | nil =>
          simp only [List.cons_append, List.nil_append, List.cons.injEq] at h
          exact absurd h.1 (ha c (List.mem_cons_self c a'))
      | cons d b' =>
          simp only [List.cons_append, List.cons.injEq] at h
          obtain ⟨hcd, htail⟩ := h
          obtain ⟨h₁, h₂⟩ := ih b' r₁ r₂
            (fun x hx => ha x (List.mem_cons_of_mem c hx))
            (fun x hx => hb x (List.mem_cons_of_mem d hx)) htail
          exact ⟨by rw [hcd, h₁], h₂⟩

/-! ## Generated-name injectivity -/

theorem natStr_data (n : Nat) : (natStr n).data = natChars n := rfl

theorem mkBlockName_data (ctr : Nat) (pfx rest : String) :
    (mkBlockName ctr pfx rest).data =
      "block_".data ++ (natChars ctr ++ '_' :: (pfx ++ rest).data) := by
  have h1 : ("_" : String).data = ['_'] := rfl
  simp only [mkBlockName, String.data_append, natStr_data, h1]
  simp [List.append_assoc]

theorem mkSummaryName_data (ctr : Nat) (rest : String) :
    (mkSummaryName ctr rest).data =
      "summary_".data ++ (natChars ctr ++ '_' :: rest.data) := by
  have h1 : ("_" : String).data = ['_'] := rfl
  simp only [mkSummaryName, String.data_append, natStr_data, h1]
  simp [List.append_assoc]

theorem mkBlockName_inj_ctr (n m : Nat) (p q r s : String)
    (h : mkBlockName n p r = mkBlockName m q s) : n = m := by
  have hd := congrArg String.data h
  rw [mkBlockName_data, mkBlockName_data] at hd
  have hd' := List.append_cancel_left hd
  obtain ⟨h₁, _⟩ := underscore_split _ _ _ _
    (natChars_no_underscore n) (natChars_no_underscore m) hd'
  exact natChars_inj n m h₁

theorem mkSummaryName_inj_ctr (n m : Nat) (r s : String)
    (h : mkSummaryName n r = mkSummaryName m s) : n = m := by
  have hd := congrArg String.data h
  rw [mkSummaryName_data, mkSummaryName_data] at hd
  have hd' := List.append_cancel_left hd
  obtain ⟨h₁, _⟩ := underscore_split _ _ _ _
    (natChars_no_underscore n) (natChars_no_underscore m) hd'
  exact natChars_inj n m h₁

theorem mkBlockName_ne_mkSummaryName (n m : Nat) (p r s : String) :
    mkBlockName n p r ≠ mkSummaryName m s := by
  intro h
  have hd := congrArg String.data h
  rw [mkBlockName_data, mkSummaryName_data] at hd
  simp at hd

/-! ## Substring containment (used for the block-counter claim) -/

/-- Boolean prefix test on character lists. -/
def leadsWith : List Char → List Char → Bool
  | [], _ => true
  | _ :: _, [] => false
  | a :: as, b :: bs => a == b && leadsWith as bs

/-- Boolean contiguous-subsequence test on character lists. -/
def containsSeq (sub : List Char) : List Char → Bool
  | [] => sub.isEmpty
  | c :: cs => leadsWith sub (c :: cs) || containsSeq sub cs

theorem leadsWith_refl_append (sub r : List Char) :
    leadsWith sub (sub ++ r) = true := by
  induction sub with
  | nil => rfl
  | cons c cs ih => simp [leadsWith, ih]

theorem containsSeq_of_parts : ∀ (l sub r : List Char),
    containsSeq sub (l ++ sub ++ r) = true := by
  intro l
  induction l with
  | nil =>
      intro sub r
      cases sub with
      | nil => cases r <;> simp [containsSeq, leadsWith, List.isEmpty]
      | cons c cs =>
          simp only [List.nil_append]
          show (leadsWith (c :: cs) ((c :: cs) ++ r) || _) = true
          rw [leadsWith_refl_append]
          simp
  | cons c cs ih =>
      intro sub r
      show (_ || containsSeq sub (cs ++ sub ++ r)) = true
      rw [ih]
      simp

/-- A name of the block_ shape contains the decimal digits of its counter
as a contiguous substring. -/
theorem mkBlockName_contains_ctr (ctr : Nat) (pfx rest : String) :
    containsSeq (natChars ctr) (mkBlockName ctr pfx rest).data = true := by
  rw [mkBlockName_data]
  have : "block_".data ++ (natChars ctr ++ '_' :: (pfx ++ rest).data) =
      "block_".data ++ natChars ctr ++ ('_' :: (pfx ++ rest).data) := by
    simp
  rw [this]
  exact containsSeq_of_parts _ _ _

/-- A name of the summary_ shape contains the decimal digits of its counter
as a contiguous substring. -/
theorem mkSummaryName_contains_ctr (ctr : Nat) (rest : String) :
    containsSeq (natChars ctr) (mkSummaryName ctr rest).data = true := by
  rw [mkSummaryName_data]
  have : "summary_".data ++ (natChars ctr ++ '_' :: rest.data) =
      "summary_".data ++ natChars ctr ++ ('_' :: rest.data) := by
    simp
  rw [this]
  exact containsSeq_of_parts _ _ _

/-! ## Rule and registration invariants -/

/-- Boolean test: the guard carries a conjunct equating the error variable
with the integer 0. -/
def hasErrZero : Term → Bool
  | .eqT (.errVar _) (.intLit z) => z == 0
  | .andT a b => hasErrZero a || hasErrZero b
  | _ => false

/-- A rule whose conclusion is an interface predicate application must
carry an error = 0 conjunct in its guard. -/
def RuleOk (r : Rule) : Prop :=
  ∀ p args, r.dst = Term.predApp p args → p.kind = .interfaceP →
    hasErrZero r.guard = true

/-- Kinds whose creation sites embed the block counter in the name. -/
def isCtrKind (k : PredKind) : Bool := k == .blockP || k == .funcSummary

/-- Counter-name discipline of a registration record: block and summary
names follow the createBlock / createSummaryBlock layouts around their
recorded counter value. -/
def CtrNameOk (e : RegEntry) : Prop :=
  (e.kind = .blockP → ∃ pfx rest, e.rname = mkBlockName e.ctrAt pfx rest) ∧
  (e.kind = .funcSummary → ∃ rest, e.rname = mkSummaryName e.ctrAt rest)

/-- Structural well-formedness of an encoder state: every summary handle
has summary kind and the loop destinations are statement blocks. -/
def GoodSt (st : EncState) : Prop :=
  (∀ e ∈ st.summariesM, e.2.kind = .funcSummary) ∧
  (∀ d, st.breakDest = some d → d.kind = .blockP) ∧
  (∀ d, st.continueDest = some d → d.kind = .blockP)

/-- Observable effect of one encoder step: the block counter is monotone,
rules are only appended (and are RuleOk in well-formed states),
well-formedness is preserved, and registrations are only appended with
counter-kind entries inside the counter window, in counter order and with
the counter-name layout. -/
def StepOut (st st' : EncState) : Prop :=
  st.blockCounter ≤ st'.blockCounter ∧
  (∃ Δ, st'.rules = st.rules ++ Δ ∧ (GoodSt st → ∀ r ∈ Δ, RuleOk r)) ∧
  (GoodSt st → GoodSt st') ∧
  (∃ E, st'.registered = st.registered ++ E ∧
    (∀ e ∈ E, CtrNameOk e ∧ (isCtrKind e.kind = true →
      st.blockCounter ≤ e.ctrAt ∧ e.ctrAt < st'.blockCounter)) ∧
    (E.filter (fun e => isCtrKind e.kind)).Pairwise (fun a b => a.ctrAt < b.ctrAt))

theorem stepOut_refl (st : EncState) : StepOut st st := by
  refine ⟨le_refl _, ⟨[], by simp, fun _ r hr => absurd hr (List.not_mem_nil r)⟩,
    id, ⟨[], by simp, fun e he => absurd he (List.not_mem_nil e), by simp⟩⟩

theorem stepOut_trans {a b c : EncState} (h₁ : StepOut a b) (h₂ : StepOut b c) :
    StepOut a c := by
  obtain ⟨hc₁, ⟨Δ₁, hr₁, hΔ₁⟩, hg₁, ⟨E₁, he₁, hE₁, hP₁⟩⟩ := h₁
  obtain ⟨hc₂, ⟨Δ₂, hr₂, hΔ₂⟩, hg₂, ⟨E₂, he₂, hE₂, hP₂⟩⟩ := h₂
  refine ⟨le_trans hc₁ hc₂,
    ⟨Δ₁ ++ Δ₂, by rw [hr₂, hr₁, List.append_assoc], ?_⟩,
    fun h => hg₂ (hg₁ h),
    ⟨E₁ ++ E₂, by rw [he₂, he₁, List.append_assoc], ?_, ?_⟩⟩
  · intro hok r hr
    rcases List.mem_append.mp hr with h | h
    · exact hΔ₁ hok r h
    · exact hΔ₂ (hg₁ hok) r h
  · intro e he
    rcases List.mem_append.mp he with h | h
    · obtain ⟨hn, hb⟩ := hE₁ e h
      exact ⟨hn, fun hk => ⟨(hb hk).1, lt_of_lt_of_le (hb hk).2 hc₂⟩⟩
    · obtain ⟨hn, hb⟩ := hE₂ e h
      exact ⟨hn, fun hk => ⟨le_trans hc₁ (hb hk).1, (hb hk).2⟩⟩
  · rw [List.filter_append]
    refine List.pairwise_append.mpr ⟨hP₁, hP₂, ?_⟩
    intro x hx y hy
    have hx' := hE₁ x (List.mem_filter.mp hx).1
    have hy' := hE₂ y (List.mem_filter.mp hy).1
    have hxk : isCtrKind x.kind = true := (List.mem_filter.mp hx).2
    have hyk : isCtrKind y.kind = true := (List.mem_filter.mp hy).2
    exact lt_of_lt_of_le (hx'.2 hxk).2 (hy'.2 hyk).1

theorem rules_append_nil (st st' : EncState) (h : st'.rules = st.rules) :
    st'.rules = st.rules ++ [] := by rw [h, List.append_nil]

theorem registered_append_nil (st st' : EncState)
    (h : st'.registered = st.registered) :
    st'.registered = st.registered ++ [] := by rw [h, List.append_nil]

theorem filter_singleton_pairwise_ctr (e : RegEntry) :
    (List.filter (fun x => isCtrKind x.kind) [e]).Pairwise
      (fun a b => a.ctrAt < b.ctrAt) := by
  by_cases h : isCtrKind e.kind = true <;> simp [List.filter_cons, h]

/-- StepOut for a state change that keeps the counter, rules,
registrations, summaries and loop destinations. -/
theorem stepOut_parts (st st' : EncState)
    (hc : st'.blockCounter = st.blockCounter)
    (hr : st'.rules = st.rules)
    (hg : st'.registered = st.registered)
    (hs : st'.summariesM = st.summariesM)
    (hbd : st'.breakDest = st.breakDest)
    (hcd : st'.continueDest = st.continueDest) :
    StepOut st st' := by
  refine ⟨le_of_eq hc.symm, ⟨[], by simp [hr], fun _ r hrm => absurd hrm (List.not_mem_nil r)⟩,
    ?_, ⟨[], by simp [hg], fun e he => absurd he (List.not_mem_nil e), by simp⟩⟩
  intro h
  refine ⟨?_, ?_, ?_⟩
  · rw [hs]; exact h.1
  · rw [hbd]; exact h.2.1
  · rw [hcd]; exact h.2.2

/-- RuleOk holds whenever the conclusion is an application of a predicate
that is not an interface predicate. -/
theorem ruleOk_predApp (src : Term) (ctx : List Term) (g : Term) (p : PredId)
    (args : List Term) (h : p.kind ≠ .interfaceP) :
    RuleOk ⟨src, ctx, g, .predApp p args⟩ := by
  intro q args' heq hk
  injection heq with h₁ h₂
  exact absurd (h₁ ▸ hk) h

/-- RuleOk holds whenever the guard carries an error = 0 conjunct. -/
theorem ruleOk_errZero (src : Term) (ctx : List Term) (g d : Term)
    (h : hasErrZero g = true) : RuleOk ⟨src, ctx, g, d⟩ :=
  fun _ _ _ _ => h

theorem stepOut_connectBlocks (st : EncState) (src dst g : Term)
    (h : GoodSt st → RuleOk ⟨src, st.ctxA, g, dst⟩) :
    StepOut st (connectBlocks st src dst g) := by
  refine ⟨le_refl _, ⟨[⟨src, st.ctxA, g, dst⟩], rfl, ?_⟩, fun hg => hg,
    ⟨[], by simp [connectBlocks], fun e he => absurd he (List.not_mem_nil e), by simp⟩⟩
  intro hok r hr
  rcases List.mem_singleton.mp hr with rfl
  exact h hok

theorem stepOut_addAssertion (st : EncState) (t : Term) :
    StepOut st (addAssertion st t) :=
  stepOut_parts _ _ rfl rfl rfl rfl rfl rfl

theorem stepOut_setCurrentBlock (st : EncState) (p : PredId)
    (args : Option (List Term)) :
    StepOut st (setCurrentBlock st p args) :=
  stepOut_parts _ _ rfl rfl rfl rfl rfl rfl

theorem stepOut_eraseKnowledge (st : EncState) :
    StepOut st (eraseKnowledge st) :=
  stepOut_parts _ _ rfl rfl rfl rfl rfl rfl

theorem stepOut_createSymbolicBlock (st : EncState) (k : PredKind)
    (nm : String) (hk : isCtrKind k = false) :
    StepOut st (createSymbolicBlock st k nm).2 := by
  refine ⟨le_refl _,
    ⟨[], rules_append_nil _ _ rfl, fun _ r hr => absurd hr (List.not_mem_nil r)⟩,
    fun hg => hg, ⟨[⟨nm, k, st.blockCounter⟩], rfl, ?_, ?_⟩⟩
  · intro e he
    rcases List.mem_singleton.mp he with rfl
    refine ⟨⟨fun hkb => ?_, fun hkb => ?_⟩, fun hkc => ?_⟩
    · exact absurd hk (by simp [show k = PredKind.blockP from hkb, isCtrKind])
    · exact absurd hk (by simp [show k = PredKind.funcSummary from hkb, isCtrKind])
    · exact absurd (show isCtrKind k = true from hkc) (by simp [hk])
  · exact filter_singleton_pairwise_ctr _

theorem stepOut_createBlockNode (st : EncState) (nodeId : Nat) (pfx : String) :
    StepOut st (createBlockNode st nodeId pfx).2 := by
  refine ⟨by show st.blockCounter ≤ st.blockCounter + 1; omega,
    ⟨[], rules_append_nil _ _ rfl, fun _ r hr => absurd hr (List.not_mem_nil r)⟩,
    fun hg => hg,
    ⟨[⟨mkBlockName st.blockCounter pfx (predicateNameNode st nodeId), .blockP,
        st.blockCounter⟩], rfl, ?_, ?_⟩⟩
  · intro e he
    rcases List.mem_singleton.mp he with rfl
    refine ⟨⟨fun _ => ⟨pfx, predicateNameNode st nodeId, rfl⟩, ?_⟩, fun _ => ?_⟩
    · intro hkb; cases hkb
    · exact ⟨le_refl _, by show st.blockCounter < st.blockCounter + 1; omega⟩
  · exact filter_singleton_pairwise_ctr _

theorem stepOut_createBlockFn (st : EncState) (f : FuncDef) :
    StepOut st (createBlockFn st f).2 := by
  refine ⟨by show st.blockCounter ≤ st.blockCounter + 1; omega,
    ⟨[], rules_append_nil _ _ rfl, fun _ r hr => absurd hr (List.not_mem_nil r)⟩,
    fun hg => hg,
    ⟨[⟨mkBlockName st.blockCounter "" (predicateNameFn f (curCid st)), .blockP,
        st.blockCounter⟩], rfl, ?_, ?_⟩⟩
  · intro e he
    rcases List.mem_singleton.mp he with rfl
    refine ⟨⟨fun _ => ⟨"", predicateNameFn f (curCid st), rfl⟩, ?_⟩, ?_⟩
    · intro hkb; cases hkb
    · intro _
      exact ⟨le_refl _, by show st.blockCounter < st.blockCounter + 1; omega⟩
  · exact filter_singleton_pairwise_ctr _

theorem stepOut_createSummaryBlock (st : EncState) (f : FuncDef)
    (c : ContractDef) : StepOut st (createSummaryBlock st f c).2 := by
  refine ⟨by show st.blockCounter ≤ st.blockCounter + 1; omega,
    ⟨[], rules_append_nil _ _ rfl, fun _ r hr => absurd hr (List.not_mem_nil r)⟩,
    fun hg => hg,
    ⟨[⟨mkSummaryName st.blockCounter (predicateNameFn f c.cid), .funcSummary,
        st.blockCounter⟩], rfl, ?_, ?_⟩⟩
  · intro e he
    rcases List.mem_singleton.mp he with rfl
    refine ⟨⟨?_, fun _ => ⟨predicateNameFn f c.cid, rfl⟩⟩, ?_⟩
    · intro hkb; cases hkb
    · intro _
      exact ⟨le_refl _, by show st.blockCounter < st.blockCounter + 1; omega⟩
  · exact filter_singleton_pairwise_ctr _

theorem lookupSummary_kind (st : EncState)
    (h : ∀ e ∈ st.summariesM, e.2.kind = .funcSummary) (a b : Nat) :
    (lookupSummary st a b).kind = .funcSummary := by
  unfold lookupSummary
  cases hf : st.summariesM.find? (fun e => e.1.1 = a ∧ e.1.2 = b) with
  | none => rfl
  | some e => exact h e (List.mem_of_find?_eq_some hf)

/-- Branch equations for the enclosing summary. -/
theorem enclosingSummary_none (prog : List ContractDef) (st : EncState)
    (h : st.curFn = none) : enclosingSummary prog st = ctorSummaryApp st := by
  unfold enclosingSummary
  rw [h]

theorem enclosingSummary_fn (prog : List ContractDef) (st : EncState)
    (f : FuncDef) (h : st.curFn = some f) (hic : ¬ (f.isCtor = true)) :
    enclosingSummary prog st = funcSummaryApp prog st f := by
  unfold enclosingSummary
  rw [h]
  show (if ¬ f.isCtor = true then funcSummaryApp prog st f else ctorSummaryApp st) = _
  rw [if_pos hic]

theorem enclosingSummary_ctor (prog : List ContractDef) (st : EncState)
    (f : FuncDef) (h : st.curFn = some f) (hic : f.isCtor = true) :
    enclosingSummary prog st = ctorSummaryApp st := by
  unfold enclosingSummary
  rw [h]
  show (if ¬ f.isCtor = true then funcSummaryApp prog st f else ctorSummaryApp st) = _
  rw [if_neg (by simp [hic])]

/-- The enclosing summary is never an interface predicate application. -/
theorem ruleOk_enclosing (prog : List ContractDef) (st : EncState)
    (src : Term) (ctx : List Term) (g : Term)
    (h : ∀ e ∈ st.summariesM, e.2.kind = PredKind.funcSummary) :
    RuleOk ⟨src, ctx, g, enclosingSummary prog st⟩ := by
  intro p args heq hk
  cases hfn : st.curFn with
  | none =>
      rw [enclosingSummary_none prog st hfn] at heq
      injection heq with h₁ h₂
      rw [← h₁] at hk
      cases hk
  | some f =>
      by_cases hic : f.isCtor = true
      · rw [enclosingSummary_ctor prog st f hfn hic] at heq
        injection heq with h₁ h₂
        rw [← h₁] at hk
        cases hk
      · rw [enclosingSummary_fn prog st f hfn hic] at heq
        injection heq with h₁ h₂
        rw [← h₁] at hk
        rw [lookupSummary_kind st h (curCid st) f.fid] at hk
        cases hk

theorem stepOut_visitAssert (prog : List ContractDef) (st : EncState)
    (condId callId : Nat) :
    StepOut st (visitAssert prog st condId callId) := by
  have h₁ : StepOut st
      { st with funcAsserts := st.funcAsserts ++ [(scopeIdOf st, callId)],
                errIdx := st.errIdx + 1 } :=
    stepOut_parts _ _ rfl rfl rfl rfl rfl rfl
  have h₂ : StepOut st
      (connectBlocks
        { st with funcAsserts := st.funcAsserts ++ [(scopeIdOf st, callId)],
                  errIdx := st.errIdx + 1 }
        st.currentBlock
        (enclosingSummary prog
          { st with funcAsserts := st.funcAsserts ++ [(scopeIdOf st, callId)],
                    errIdx := st.errIdx + 1 })
        (.andT (.andT st.pathCond (.notT (.astExpr condId)))
          (.eqT (.errVar (st.errIdx + 1)) (.intLit (callId : Int))))) := by
    refine stepOut_trans h₁ (stepOut_connectBlocks _ _ _ _ ?_)
    intro hg
    exact ruleOk_enclosing prog _ _ _ _ hg.1
  exact stepOut_trans h₂ (stepOut_addAssertion _ _)

theorem stepOut_unknownFunctionCall (st : EncState) :
    StepOut st (unknownFunctionCall st) :=
  stepOut_parts _ _ rfl rfl rfl rfl rfl rfl

theorem stepOut_internalFunctionCall (prog : List ContractDef)
    (st : EncState) (fid : Nat) (argIds : List Nat) :
    StepOut st (internalFunctionCall prog st fid argIds) := by
  rcases hfd : funcCallToDef prog fid with _ | ⟨⟨cc, f⟩⟩
  · have heq : internalFunctionCall prog st fid argIds =
        (let s3 := addAssertion st (.boolLit true)
         let s4 := connectBlocks s3 s3.currentBlock (enclosingSummary prog s3)
           (.gtT (.errVar s3.errIdx) (.intLit 0))
         let s5 := addAssertion s4 (.eqT (.errVar s4.errIdx) (.intLit 0))
         let s6 := { s5 with errIdx := s5.errIdx + 1 }
         addAssertion s6 (.eqT (.errVar s6.errIdx) (.errVar st.errIdx))) := by
      simp only [internalFunctionCall, predicateCall, hfd]
    rw [heq]
    lift_lets
    intro s3 s4 s5 s6
    have h₁ : StepOut st s3 := stepOut_addAssertion st (.boolLit true)
    have h₂ : StepOut st s4 := stepOut_trans h₁
      (stepOut_connectBlocks s3 s3.currentBlock (enclosingSummary prog s3)
        (.gtT (.errVar s3.errIdx) (.intLit 0))
        (fun hg => ruleOk_enclosing prog s3 _ _ _ hg.1))
    have h₃ : StepOut st s5 := stepOut_trans h₂ (stepOut_addAssertion s4 _)
    have h₄ : StepOut st s6 := stepOut_trans h₃
      (stepOut_parts s5 s6 rfl rfl rfl rfl rfl rfl)
    exact stepOut_trans h₄ (stepOut_addAssertion s6 _)
  · have heq : internalFunctionCall prog st fid argIds =
        (let sA : EncState :=
          { st with callGraph := st.callGraph ++ [(scopeIdOf st, f.fid)] }
         let s1 := if cc.isLib then addAssertion sA (ifaceOf sA cc) else sA
         let s2 := bumpOrCreateRets (bumpStateVars { s1 with errIdx := s1.errIdx + 1 }) f.rets
         let papp := Term.predApp
           (if cc.isLib then lookupSummary s2 cc.cid f.fid
             else lookupSummary s2 (curCid s2) f.fid)
           (Term.errVar (s1.errIdx + 1) ::
             ((if cc.isLib then varsAt 0 cc.stateVars
               else currentStateVars { s1 with errIdx := s1.errIdx + 1 }) ++
              argIds.map Term.astExpr ++
              (if cc.isLib then varsAt 1 cc.stateVars
               else currentStateVars (bumpStateVars { s1 with errIdx := s1.errIdx + 1 })) ++
              currentVals s2 f.rets))
         let s3 := addAssertion s2 papp
         let s4 := connectBlocks s3 s3.currentBlock (enclosingSummary prog s3)
           (.gtT (.errVar s3.errIdx) (.intLit 0))
         let s5 := addAssertion s4 (.eqT (.errVar s4.errIdx) (.intLit 0))
         let s6 := { s5 with errIdx := s5.errIdx + 1 }
         addAssertion s6 (.eqT (.errVar s6.errIdx) (.errVar s1.errIdx))) := by
      simp only [internalFunctionCall, predicateCall, hfd]
    rw [heq]
    lift_lets
    intro sA s1 s2 papp s3 s4 s5 s6
    have hs1sum : s1.summariesM = st.summariesM := by
      show (if cc.isLib then addAssertion sA (ifaceOf sA cc) else sA).summariesM = _
      by_cases hl : cc.isLib = true <;> simp [hl, addAssertion, sA]
    have hs1step : StepOut st s1 := by
      show StepOut st (if cc.isLib then addAssertion sA (ifaceOf sA cc) else sA)
      by_cases hl : cc.isLib = true
      · rw [if_pos hl]
        exact stepOut_trans (stepOut_parts st sA rfl rfl rfl rfl rfl rfl)
          (stepOut_addAssertion _ _)
      · rw [if_neg hl]
        exact stepOut_parts st sA rfl rfl rfl rfl rfl rfl
    obtain ⟨hsum, hstv, hcc2, herr, hrl, hrg, hbc, hbd, hcd⟩ :=
      bumpOrCreateRets_fields f.rets (bumpStateVars { s1 with errIdx := s1.errIdx + 1 })
    have hstep2 : StepOut s1 s2 :=
      stepOut_parts s1 s2 (by rw [show s2.blockCounter = _ from hbc]; try rfl)
        (by rw [show s2.rules = _ from hrl]; try rfl)
        (by rw [show s2.registered = _ from hrg]; try rfl)
        (by rw [show s2.summariesM = _ from hsum]; try rfl)
        (by rw [show s2.breakDest = _ from hbd]; try rfl)
        (by rw [show s2.continueDest = _ from hcd]; try rfl)
    have hsum2 : s3.summariesM = st.summariesM := by
      show s2.summariesM = st.summariesM
      rw [show s2.summariesM = _ from hsum]
      show s1.summariesM = st.summariesM
      exact hs1sum
    have h₃ : StepOut st s3 :=
      stepOut_trans (stepOut_trans hs1step hstep2) (stepOut_addAssertion s2 papp)
    have h₄ : StepOut st s4 := stepOut_trans h₃
      (stepOut_connectBlocks s3 s3.currentBlock (enclosingSummary prog s3)
        (.gtT (.errVar s3.errIdx) (.intLit 0))
        (fun hg => ruleOk_enclosing prog s3 _ _ _ hg.1))
    have h₅ : StepOut st s5 := stepOut_trans h₄ (stepOut_addAssertion s4 _)
    have h₆ : StepOut st s6 := stepOut_trans h₅
      (stepOut_parts s5 s6 rfl rfl rfl rfl rfl rfl)
    exact stepOut_trans h₆ (stepOut_addAssertion s6 _)

/-- Restoring the loop destinations saved from the origin state. -/
theorem stepOut_restoreDests (st₀ stA : EncState) (h : StepOut st₀ stA)
    (b c : Option PredId) (hb : b = st₀.breakDest) (hc : c = st₀.continueDest) :
    StepOut st₀ { stA with breakDest := b, continueDest := c } := by
  obtain ⟨h1, h2, h4, h5⟩ := h
  refine ⟨h1, h2, ?_, h5⟩
  intro hg
  refine ⟨(h4 hg).1, ?_, ?_⟩
  · intro d hd
    rw [hb] at hd
    exact hg.2.1 d hd
  · intro d hd
    rw [hc] at hd
    exact hg.2.2 d hd

/-- Setting the loop destinations to freshly created statement blocks. -/
theorem stepOut_setDests (st : EncState) (b c : PredId)
    (hb : b.kind = .blockP) (hc : c.kind = .blockP) :
    StepOut st { st with breakDest := some b, continueDest := some c } := by
  refine ⟨le_refl _,
    ⟨[], rules_append_nil _ _ rfl, fun _ r hr => absurd hr (List.not_mem_nil r)⟩,
    ?_, ⟨[], registered_append_nil _ _ rfl,
      fun e he => absurd he (List.not_mem_nil e), by simp⟩⟩
  intro hg
  refine ⟨hg.1, ?_, ?_⟩
  · intro d hd
    injection hd with hd
    rw [← hd]
    exact hb
  · intro d hd
    injection hd with hd
    rw [← hd]
    exact hc

/-- The conditional havoc at the exit of ifs and loops. -/
theorem stepOut_iteErase (st : EncState) (c : Bool) :
    StepOut st (if c = true then eraseKnowledge st else st) := by
  cases c
  · rw [if_neg (by simp)]
    exact stepOut_refl st
  · rw [if_pos rfl]
    exact stepOut_eraseKnowledge st

theorem stepOut_encodeIfGen (ifId condId thenId : Nat) (elseId : Option Nat)
    (recT recE : EncState → EncState) (st : EncState)
    (hT : ∀ σ, StepOut σ (recT σ)) (hE : ∀ σ, StepOut σ (recE σ)) :
    StepOut st (encodeIfGen ifId condId thenId elseId recT recE st) := by
  cases elseId with
  | none =>
      unfold encodeIfGen
      lift_lets
      intro saved st0 fb ph hdr st1 pt tB st2 pf fBlk st3 pa afterB st4
        st5 st6 cond st7 st8 st9 st10 st11 st12 st13 st14
      have h0 : StepOut st st0 := stepOut_parts st st0 rfl rfl rfl rfl rfl rfl
      have h1 : StepOut st st1 :=
        stepOut_trans h0 (stepOut_createBlockNode st0 ifId "if_header_")
      have h2 : StepOut st st2 :=
        stepOut_trans h1 (stepOut_createBlockNode st1 thenId "if_true_")
      have h4 : StepOut st st4 :=
        stepOut_trans h2 (stepOut_createBlockNode st3 fb "")
      have h5 : StepOut st st5 := stepOut_trans h4
        (stepOut_connectBlocks st4 _ _ _ (fun _ => ruleOk_predApp _ _ _ _ _
          (by exact (by decide : PredKind.blockP ≠ PredKind.interfaceP))))
      have h6 : StepOut st st6 :=
        stepOut_trans h5 (stepOut_setCurrentBlock st5 hdr none)
      have h7 : StepOut st st7 := stepOut_trans h6
        (stepOut_connectBlocks st6 _ _ _ (fun _ => ruleOk_predApp _ _ _ _ _
          (by exact (by decide : PredKind.blockP ≠ PredKind.interfaceP))))
      have h8 : StepOut st st8 := stepOut_trans h7
        (stepOut_connectBlocks st7 _ _ _ (fun _ => ruleOk_predApp _ _ _ _ _
          (by exact (by decide : PredKind.blockP ≠ PredKind.interfaceP))))
      have h9 : StepOut st st9 :=
        stepOut_trans h8 (stepOut_setCurrentBlock st8 tB none)
      have h10 : StepOut st st10 := stepOut_trans h9 (hT st9)
      have h11 : StepOut st st11 := stepOut_trans h10
        (stepOut_connectBlocks st10 _ _ _ (fun _ => ruleOk_predApp _ _ _ _ _
          (by exact (by decide : PredKind.blockP ≠ PredKind.interfaceP))))
      have h13 : StepOut st st13 :=
        stepOut_trans h11 (stepOut_setCurrentBlock st12 afterB none)
      have h14 : StepOut st st14 :=
        stepOut_trans h13 (stepOut_iteErase st13 st13.unknownSeen)
      exact stepOut_trans h14 (stepOut_parts st14 _ rfl rfl rfl rfl rfl rfl)
  | some eId =>
      unfold encodeIfGen
      lift_lets
      intro saved st0 fb ph hdr st1 pt tB st2 pf fBlk st3 pa afterB st4
        st5 st6 cond st7 st8 st9 st10 st11 st12 st13 st14
      have h0 : StepOut st st0 := stepOut_parts st st0 rfl rfl rfl rfl rfl rfl
      have h1 : StepOut st st1 :=
        stepOut_trans h0 (stepOut_createBlockNode st0 ifId "if_header_")
      have h2 : StepOut st st2 :=
        stepOut_trans h1 (stepOut_createBlockNode st1 thenId "if_true_")
      have h3 : StepOut st st3 :=
        stepOut_trans h2 (stepOut_createBlockNode st2 eId "if_false_")
      have h4 : StepOut st st4 :=
        stepOut_trans h3 (stepOut_createBlockNode st3 fb "")
      have h5 : StepOut st st5 := stepOut_trans h4
        (stepOut_connectBlocks st4 _ _ _ (fun _ => ruleOk_predApp _ _ _ _ _
          (by exact (by decide : PredKind.blockP ≠ PredKind.interfaceP))))
      have h6 : StepOut st st6 :=
        stepOut_trans h5 (stepOut_setCurrentBlock st5 hdr none)
      have h7 : StepOut st st7 := stepOut_trans h6
        (stepOut_connectBlocks st6 _ _ _ (fun _ => ruleOk_predApp _ _ _ _ _
          (by exact (by decide : PredKind.blockP ≠ PredKind.interfaceP))))
      have h8 : StepOut st st8 := stepOut_trans h7
        (stepOut_connectBlocks st7 _ _ _ (fun _ => ruleOk_predApp _ _ _ _ _
          (by exact (by decide : PredKind.blockP ≠ PredKind.interfaceP))))
      have h9 : StepOut st st9 :=
        stepOut_trans h8 (stepOut_setCurrentBlock st8 tB none)
      have h10 : StepOut st st10 := stepOut_trans h9 (hT st9)
      have h11 : StepOut st st11 := stepOut_trans h10
        (stepOut_connectBlocks st10 _ _ _ (fun _ => ruleOk_predApp _ _ _ _ _
          (by exact (by decide : PredKind.blockP ≠ PredKind.interfaceP))))
      have h12 : StepOut st st12 := by
        have ha : StepOut st11
            (setCurrentBlock st11 (createBlockNode st2 eId "if_false_").1 none) :=
          stepOut_setCurrentBlock st11 _ none
        have hb := stepOut_trans (stepOut_trans h11 ha)
          (hE (setCurrentBlock st11 (createBlockNode st2 eId "if_false_").1 none))
        exact stepOut_trans hb
          (stepOut_connectBlocks _ _ _ _ (fun _ => ruleOk_predApp _ _ _ _ _
            (by exact (by decide : PredKind.blockP ≠ PredKind.interfaceP))))
      have h13 : StepOut st st13 :=
        stepOut_trans h12 (stepOut_setCurrentBlock st12 afterB none)
      have h14 : StepOut st st14 :=
        stepOut_trans h13 (stepOut_iteErase st13 st13.unknownSeen)
      exact stepOut_trans h14 (stepOut_parts st14 _ rfl rfl rfl rfl rfl rfl)

theorem stepOut_encodeWhileGen (isDoWhile : Bool)
    (whileId condId bodyId : Nat) (recB : EncState → EncState)
    (st : EncState) (hB : ∀ σ, StepOut σ (recB σ)) :
    StepOut st (encodeWhileGen isDoWhile whileId condId bodyId recB st) := by
  unfold encodeWhileGen
  lift_lets
  intro saved st0 fb pfx ph hdr st1 pb bodyB st2 pa afterB st3 outerBreak
    outerContinue st4 st5 st6 st7 cond st8 st9 st10 st11 st12 st13 st14 st15
  have h0 : StepOut st st0 := stepOut_parts st st0 rfl rfl rfl rfl rfl rfl
  have h1 : StepOut st st1 :=
    stepOut_trans h0 (stepOut_createBlockNode st0 whileId (pfx ++ "_header_"))
  have h2 : StepOut st st2 :=
    stepOut_trans h1 (stepOut_createBlockNode st1 bodyId (pfx ++ "_body_"))
  have h3 : StepOut st st3 :=
    stepOut_trans h2 (stepOut_createBlockNode st2 fb "")
  have h4 : StepOut st st4 :=
    stepOut_trans h3 (stepOut_setDests st3 afterB hdr rfl rfl)
  have h5 : StepOut st st5 := by
    cases isDoWhile with
    | false => exact h4
    | true => exact stepOut_trans h4 (hB st4)
  have h6 : StepOut st st6 := stepOut_trans h5
    (stepOut_connectBlocks st5 _ _ _ (fun _ => ruleOk_predApp _ _ _ _ _
      (by exact (by decide : PredKind.blockP ≠ PredKind.interfaceP))))
  have h7 : StepOut st st7 :=
    stepOut_trans h6 (stepOut_setCurrentBlock st6 hdr none)
  have h8 : StepOut st st8 := stepOut_trans h7
    (stepOut_connectBlocks st7 _ _ _ (fun _ => ruleOk_predApp _ _ _ _ _
      (by exact (by decide : PredKind.blockP ≠ PredKind.interfaceP))))
  have h9 : StepOut st st9 := stepOut_trans h8
    (stepOut_connectBlocks st8 _ _ _ (fun _ => ruleOk_predApp _ _ _ _ _
      (by exact (by decide : PredKind.blockP ≠ PredKind.interfaceP))))
  have h10 : StepOut st st10 :=
    stepOut_trans h9 (stepOut_setCurrentBlock st9 bodyB none)
  have h11 : StepOut st st11 := stepOut_trans h10 (hB st10)
  have h12 : StepOut st st12 :=
    stepOut_restoreDests st st11 h11 outerBreak outerContinue rfl rfl
  have h13 : StepOut st st13 := stepOut_trans h12
    (stepOut_connectBlocks st12 _ _ _ (fun _ => ruleOk_predApp _ _ _ _ _
      (by exact (by decide : PredKind.blockP ≠ PredKind.interfaceP))))
  have h14 : StepOut st st14 :=
    stepOut_trans h13 (stepOut_setCurrentBlock st13 afterB none)
  have h15 : StepOut st st15 :=
    stepOut_trans h14 (stepOut_iteErase st14 st14.unknownSeen)
  exact stepOut_trans h15 (stepOut_parts st15 _ rfl rfl rfl rfl rfl rfl)

mutual

theorem encodeStmt_stepOut (prog : List ContractDef) (s : Stmt) (st : EncState) :
    StepOut st (encodeStmt prog s st) := by
  cases s with
  | assertS condId callId => exact stepOut_visitAssert prog st condId callId
  | callS fid argIds => exact stepOut_internalFunctionCall prog st fid argIds
  | unknownS nodeId => exact stepOut_unknownFunctionCall st
  | breakS nodeId =>
      show StepOut st
        (match st.breakDest with
          | none => st
          | some d =>
              let st₁ := connectBlocks st st.currentBlock
                (.predApp d (currentBlockVars st)) (.boolLit true)
              let g := createBlockNode st₁ nodeId "break_ghost_"
              { g.2 with currentBlock := .predApp g.1 (currentBlockVars g.2) })
      cases hd : st.breakDest with
      | none => exact stepOut_refl st
      | some d =>
          have h₁ : StepOut st (connectBlocks st st.currentBlock
              (.predApp d (currentBlockVars st)) (.boolLit true)) :=
            stepOut_connectBlocks st _ _ _
              (fun hg => ruleOk_predApp _ _ _ _ _
                (by rw [hg.2.1 d hd]; decide))
          have h₂ := stepOut_trans h₁ (stepOut_createBlockNode _ nodeId "break_ghost_")
          exact stepOut_trans h₂ (stepOut_parts _ _ rfl rfl rfl rfl rfl rfl)
  | continueS nodeId =>
      show StepOut st
        (match st.continueDest with
          | none => st
          | some d =>
              let st₁ := connectBlocks st st.currentBlock
                (.predApp d (currentBlockVars st)) (.boolLit true)
              let g := createBlockNode st₁ nodeId "continue_ghost_"
              { g.2 with currentBlock := .predApp g.1 (currentBlockVars g.2) })
      cases hd : st.continueDest with
      | none => exact stepOut_refl st
      | some d =>
          have h₁ : StepOut st (connectBlocks st st.currentBlock
              (.predApp d (currentBlockVars st)) (.boolLit true)) :=
            stepOut_connectBlocks st _ _ _
              (fun hg => ruleOk_predApp _ _ _ _ _
                (by rw [hg.2.2 d hd]; decide))
          have h₂ := stepOut_trans h₁ (stepOut_createBlockNode _ nodeId "continue_ghost_")
          exact stepOut_trans h₂ (stepOut_parts _ _ rfl rfl rfl rfl rfl rfl)
  | ifS ifId condId thenId thenB elseInfo =>
      cases elseInfo with
      | none =>
          exact stepOut_encodeIfGen ifId condId thenId none
            (fun σ => encodeStmts prog thenB σ) (fun σ => σ) st
            (fun σ => encodeStmts_stepOut prog thenB σ)
            (fun σ => stepOut_refl σ)
      | some ei =>
          exact stepOut_encodeIfGen ifId condId thenId (some ei.1)
            (fun σ => encodeStmts prog thenB σ)
            (fun σ => encodeStmts prog ei.2 σ) st
            (fun σ => encodeStmts_stepOut prog thenB σ)
            (fun σ => encodeStmts_stepOut prog ei.2 σ)
  | whileS isDoWhile whileId condId bodyId body =>
      exact stepOut_encodeWhileGen isDoWhile whileId condId bodyId
        (fun σ => encodeStmts prog body σ) st
        (fun σ => encodeStmts_stepOut prog body σ)

theorem encodeStmts_stepOut (prog : List ContractDef) (l : List Stmt)
    (st : EncState) : StepOut st (encodeStmts prog l st) := by
  cases l with
  | nil => exact stepOut_refl st
  | cons s ss =>
      exact stepOut_trans (encodeStmt_stepOut prog s st)
        (encodeStmts_stepOut prog ss (encodeStmt prog s st))

end

/-! ## StepOut through the contract, function and driver levels -/

theorem stepOut_foldl {α : Type} (g : EncState → α → EncState)
    (h : ∀ s a, StepOut s (g s a)) :
    ∀ (l : List α) (st : EncState), StepOut st (l.foldl g st) := by
  intro l
  induction l with
  | nil => intro st; exact stepOut_refl st
  | cons a as ih =>
      intro st
      exact stepOut_trans (h st a) (ih (g st a))

/-- RuleOk for an edge into a function summary application. -/
theorem ruleOk_funcSummary (prog : List ContractDef) (st : EncState)
    (f : FuncDef) (src : Term) (ctx : List Term) (g : Term)
    (h : ∀ e ∈ st.summariesM, e.2.kind = .funcSummary) :
    RuleOk ⟨src, ctx, g, funcSummaryApp prog st f⟩ := by
  intro p args heq hk
  injection heq with h₁ h₂
  rw [← h₁] at hk
  rw [lookupSummary_kind st h (curCid st) f.fid] at hk
  cases hk

theorem stepOut_initFunction (st : EncState) (f : FuncDef) :
    StepOut st (initFunction { st with curFn := some f } f) :=
  stepOut_parts _ _ rfl rfl rfl rfl rfl rfl

theorem stepOut_encodeFunction (prog : List ContractDef) (st : EncState)
    (f : FuncDef) : StepOut st (encodeFunction prog st f) := by
  unfold encodeFunction
  by_cases hsv : shouldVisit f = true
  · rw [if_neg (by simp [hsv])]
    cases hfn : st.curFn with
    | some g => exact stepOut_refl st
    | none =>
        lift_lets
        intro st₁ pe entryB st₂ pb bodyB st₃ funcPred bodyPred st₄ st₅ st₆ st₇
          st₈ st₉ st₁₀ sfx pc ce c₁ c₂ c₃ cse c₄ aErr sum u₁ iface use u₂ u' u₃
        have h₁ : StepOut st st₁ := stepOut_initFunction st f
        have h₂ : StepOut st st₂ := stepOut_trans h₁ (stepOut_createBlockFn st₁ f)
        have h₃ : StepOut st st₃ :=
          stepOut_trans h₂ (stepOut_createBlockNode st₂ f.bodyId "")
        have h₄ : StepOut st st₄ := by
          by_cases hic : f.isCtor = true
          · refine stepOut_trans h₃ ?_
            show StepOut st₃ (if f.isCtor = true then _ else _)
            rw [if_pos hic]
            exact stepOut_connectBlocks st₃ _ _ _ (fun _ => ruleOk_predApp _ _ _ _ _
              (by exact (by decide : PredKind.blockP ≠ PredKind.interfaceP)))
          · refine stepOut_trans h₃ ?_
            show StepOut st₃ (if f.isCtor = true then _ else _)
            rw [if_neg hic]
            exact stepOut_connectBlocks st₃ _ _ _ (fun _ => ruleOk_predApp _ _ _ _ _
              (by exact (by decide : PredKind.blockP ≠ PredKind.interfaceP)))
        have h₅ : StepOut st st₅ := stepOut_trans h₄ (stepOut_addAssertion st₄ _)
        have h₆ : StepOut st st₆ := stepOut_trans h₅
          (stepOut_foldl _ (fun s v => stepOut_addAssertion s _) st₅.stVars st₅)
        have h₇ : StepOut st st₇ := stepOut_trans h₆
          (stepOut_foldl _ (fun s v => stepOut_addAssertion s _) f.params st₆)
        have h₈ : StepOut st st₈ := stepOut_trans h₇
          (stepOut_connectBlocks st₇ _ _ _ (fun _ => ruleOk_predApp _ _ _ _ _
            (by exact (by decide : PredKind.blockP ≠ PredKind.interfaceP))))
        have h₉ : StepOut st st₉ :=
          stepOut_trans h₈ (stepOut_setCurrentBlock st₈ bodyB none)
        have h₁₀ : StepOut st st₁₀ :=
          stepOut_trans h₉ (encodeStmts_stepOut prog f.body st₉)
        have g₁ : StepOut st c₁ := stepOut_trans h₁₀
          (stepOut_createSymbolicBlock st₁₀ .ctorExit _ (by decide))
        have g₂ : StepOut st c₂ := stepOut_trans g₁
          (stepOut_connectBlocks c₁ _ _ _ (fun _ => ruleOk_predApp _ _ _ _ _
            (by exact (by decide : PredKind.ctorExit ≠ PredKind.interfaceP))))
        have g₃ : StepOut st c₃ :=
          stepOut_trans g₂ (stepOut_parts c₂ c₃ rfl rfl rfl rfl rfl rfl)
        have g₄ : StepOut st c₄ :=
          stepOut_trans g₃ (stepOut_setCurrentBlock c₃ ce (some cse))
        have k₁ : StepOut st u₁ := stepOut_trans h₁₀
          (stepOut_connectBlocks st₁₀ _ _ _
            (fun hg => ruleOk_funcSummary prog st₁₀ f _ _ _ hg.1))
        have k₂ : StepOut st u₂ := stepOut_trans k₁
          (stepOut_setCurrentBlock u₁ (lookupIface u₁ (curCid u₁)) (some use))
        have k₃ : StepOut st u₃ := by
          by_cases hp : f.isPublic = true
          · refine stepOut_trans k₂ ?_
            show StepOut u₂ (if f.isPublic = true then _ else _)
            rw [if_pos hp]
            refine stepOut_trans (stepOut_parts u₂ u' rfl rfl rfl rfl rfl rfl) ?_
            refine stepOut_connectBlocks _ _ _ _ (fun _ => ruleOk_errZero _ _ _ _ ?_)
            show (hasErrZero sum || hasErrZero (.eqT aErr (.intLit 0))) = true
            have herr : hasErrZero (Term.eqT aErr (.intLit 0)) = true := by
              show hasErrZero (Term.eqT (.errVar st₁₀.errIdx) (.intLit 0)) = true
              simp [hasErrZero]
            rw [herr]
            simp
          · refine stepOut_trans k₂ ?_
            show StepOut u₂ (if f.isPublic = true then _ else _)
            rw [if_neg hp]
            exact stepOut_refl u₂
        by_cases hic : f.isCtor = true
        · show StepOut st (if f.isCtor = true then _ else _)
          rw [if_pos hic]
          exact stepOut_trans g₄ (stepOut_parts c₄ _ rfl rfl rfl rfl rfl rfl)
        · show StepOut st (if f.isCtor = true then _ else _)
          rw [if_neg hic]
          exact stepOut_trans k₃ (stepOut_parts u₃ _ rfl rfl rfl rfl rfl rfl)
  · rw [if_pos (by simp [hsv])]
    exact stepOut_refl st

/-- StepOut for a state change that clears both loop destinations. -/
theorem stepOut_parts_clearDests (st st' : EncState)
    (hc : st'.blockCounter = st.blockCounter)
    (hr : st'.rules = st.rules)
    (hg : st'.registered = st.registered)
    (hs : st'.summariesM = st.summariesM)
    (hbd : st'.breakDest = none)
    (hcd : st'.continueDest = none) :
    StepOut st st' := by
  refine ⟨le_of_eq hc.symm,
    ⟨[], by simp [hr], fun _ r hrm => absurd hrm (List.not_mem_nil r)⟩, ?_,
    ⟨[], by simp [hg], fun e he => absurd he (List.not_mem_nil e), by simp⟩⟩
  intro h
  refine ⟨?_, ?_, ?_⟩
  · rw [hs]; exact h.1
  · intro d hd; rw [hbd] at hd; cases hd
  · intro d hd; rw [hcd] at hd; cases hd

theorem stepOut_visitContract (st : EncState) (c : ContractDef) :
    StepOut st (visitContract st c) := by
  unfold visitContract
  lift_lets
  intro st₁ st₂ st₃ sfx st₄ st₅ st₆ st₇ stateExprs
  have h₁ : StepOut st st₂ := stepOut_parts_clearDests st st₂ rfl rfl rfl rfl rfl rfl
  have h₃ : StepOut st st₃ :=
    stepOut_trans h₁ (stepOut_parts st₂ st₃ rfl rfl rfl rfl rfl rfl)
  have h₄ : StepOut st st₄ := stepOut_trans h₃
    (stepOut_createSymbolicBlock st₃ .errorP _ (by decide))
  have h₅ : StepOut st st₅ := stepOut_trans h₄
    (stepOut_createSymbolicBlock st₄ .ctorSummary _ (by decide))
  have h₆ : StepOut st st₆ := stepOut_trans h₅
    (stepOut_createSymbolicBlock st₅ .implicitCtor _ (by decide))
  have h₇ : StepOut st st₇ :=
    stepOut_trans h₆ (stepOut_parts st₆ st₇ rfl rfl rfl rfl rfl rfl)
  exact stepOut_trans h₇
    (stepOut_setCurrentBlock st₇ (lookupIface st₇ c.cid) (some stateExprs))

/-- StepOut through the optional explicit-constructor encoding. -/
theorem stepOut_optCtor (prog : List ContractDef) (st : EncState)
    (o : Option FuncDef) :
    StepOut st (match o with
      | some ctor => encodeFunction prog st ctor
      | none => st) := by
  cases o with
  | none => exact stepOut_refl st
  | some ctor => exact stepOut_encodeFunction prog st ctor

/-- StepOut through the zero-initialisation of one state variable. -/
theorem stepOut_zeroInit (s : EncState) (v : SVar) :
    StepOut s
      (let s' := { s with ssa := updSSA s.ssa v.vn 0 }
       let s'' := addAssertion s' (.eqT (.svar v.vn 0) (.intLit 0))
       { s'' with ssa := bumpVar s''.ssa v.vn }) := by
  refine stepOut_trans
    (stepOut_parts s { s with ssa := updSSA s.ssa v.vn 0 } rfl rfl rfl rfl rfl rfl) ?_
  refine stepOut_trans
    (stepOut_addAssertion _ (.eqT (.svar v.vn 0) (.intLit 0))) ?_
  exact stepOut_parts _ _ rfl rfl rfl rfl rfl rfl

theorem stepOut_endVisitContract (prog : List ContractDef) (st : EncState)
    (c : ContractDef) : StepOut st (endVisitContract prog st c) := by
  unfold endVisitContract
  lift_lets
  intro st₁ icApp st₂ st₃ st₄ st₅ sumApp st₆ st₇ stateExprs st₈ st₉
  have h₁ : StepOut st st₁ :=
    stepOut_foldl _ (fun s v => stepOut_zeroInit s v) st.stVars st
  have h₂ : StepOut st st₂ := stepOut_trans h₁
    (stepOut_connectBlocks st₁ _ _ _ (fun _ => ruleOk_predApp _ _ _ _ _
      (by exact (by decide : PredKind.implicitCtor ≠ PredKind.interfaceP))))
  have h₃ : StepOut st st₃ :=
    stepOut_trans h₂ (stepOut_parts st₂ st₃ rfl rfl rfl rfl rfl rfl)
  have h₄ : StepOut st st₄ := stepOut_trans h₃ (stepOut_addAssertion st₃ _)
  have h₅ : StepOut st st₅ :=
    stepOut_trans h₄ (stepOut_optCtor prog st₄ (c.funcs.find? (fun f => f.isCtor)))
  have h₆ : StepOut st st₆ := stepOut_trans h₅
    (stepOut_connectBlocks st₅ _ _ _ (fun _ => ruleOk_predApp _ _ _ _ _
      (by exact (by decide : PredKind.ctorSummary ≠ PredKind.interfaceP))))
  have h₇ : StepOut st st₇ :=
    stepOut_trans h₆ (stepOut_parts st₆ st₇ rfl rfl rfl rfl rfl rfl)
  have h₈ : StepOut st st₈ := stepOut_trans h₇
    (stepOut_setCurrentBlock st₇ ⟨.ctorSummary, ctorSummaryName c⟩ (some stateExprs))
  have h₉ : StepOut st st₉ :=
    stepOut_trans h₈ (stepOut_parts st₈ st₉ rfl rfl rfl rfl rfl rfl)
  refine stepOut_trans h₉
    (stepOut_connectBlocks st₉ _ _ _ (fun _ => ruleOk_errZero _ _ _ _ ?_))
  simp [hasErrZero]

theorem stepOut_encodeContract (prog : List ContractDef) (st : EncState)
    (c : ContractDef) : StepOut st (encodeContract prog st c) := by
  unfold encodeContract
  lift_lets
  intro st₁ st₂
  have h₁ : StepOut st st₁ := stepOut_visitContract st c
  have h₂ : StepOut st st₂ := stepOut_trans h₁
    (stepOut_foldl _ (fun s f => stepOut_encodeFunction prog s f) _ st₁)
  exact stepOut_trans h₂ (stepOut_endVisitContract prog st₂ c)

theorem stepOut_declareSummary (c : ContractDef) (t : EncState) (f : FuncDef) :
    StepOut t (declareSummary c t f) := by
  refine stepOut_trans (stepOut_createSummaryBlock t f c) ?_
  refine ⟨le_refl _,
    ⟨[], rules_append_nil _ _ rfl, fun _ r hr => absurd hr (List.not_mem_nil r)⟩,
    ?_, ⟨[], registered_append_nil _ _ rfl,
      fun e he => absurd he (List.not_mem_nil e), by simp⟩⟩
  intro hg
  refine ⟨?_, hg.2.1, hg.2.2⟩
  intro e he
  rcases List.mem_append.mp he with h | h
  · exact hg.1 e h
  · rcases List.mem_singleton.mp h with rfl
    rfl

theorem stepOut_declareContract (s : EncState) (c : ContractDef) :
    StepOut s (declareContract s c) := by
  unfold declareContract
  lift_lets
  intro b bs s₂ fresh s₃
  have h₁ : StepOut s s₂ := stepOut_trans
    (stepOut_createSymbolicBlock s .interfaceP _ (by decide))
    (stepOut_parts _ s₂ rfl rfl rfl rfl rfl rfl)
  have h₂ : StepOut s s₃ :=
    stepOut_trans h₁ (stepOut_parts s₂ s₃ rfl rfl rfl rfl rfl rfl)
  exact stepOut_trans h₂
    (stepOut_foldl _ (fun t f => stepOut_declareSummary c t f) c.funcs s₃)

theorem stepOut_createErrorBlock (st : EncState) :
    StepOut st (createErrorBlock st) := by
  refine ⟨le_refl _,
    ⟨[], rules_append_nil _ _ rfl, fun _ r hr => absurd hr (List.not_mem_nil r)⟩,
    fun hg => hg, ⟨[⟨st.errorPredName, .errorP, st.blockCounter⟩], rfl, ?_, ?_⟩⟩
  · intro e he
    rcases List.mem_singleton.mp he with rfl
    refine ⟨⟨fun hkb => ?_, fun hkb => ?_⟩, fun hkc => ?_⟩
    · cases hkb
    · cases hkb
    · exact Bool.noConfusion (show false = true from hkc)
  · exact filter_singleton_pairwise_ctr _

theorem stepOut_runTarget_aux (backend : Nat → Nat → CheckResult)
    (t : VTarget) :
    ∀ (l : List Nat) (acc : AnalysisOut),
      StepOut acc.final
        ((l.foldl (fun a (aId : Nat) =>
          let st₁ := createErrorBlock a.final
          let st₂ := connectBlocks st₁ t.value (errorApp st₁)
            (.andT t.constraints (.eqT t.errorId (.intLit (aId : Int))))
          let r := backend t.scopeId aId
          ({ final := st₂,
             safe := if r = .UNSATISFIABLE then a.safe ++ [aId] else a.safe,
             warns := a.warns ++ queryWarn r } : AnalysisOut)) acc).final) := by
  intro l
  induction l with
  | nil => intro acc; exact stepOut_refl acc.final
  | cons a as ih =>
      intro acc
      refine stepOut_trans ?_ (ih _)
      refine stepOut_trans (stepOut_createErrorBlock acc.final) ?_
      exact stepOut_connectBlocks _ _ _ _ (fun _ => ruleOk_predApp _ _ _ _ _
        (by exact (by decide : PredKind.errorP ≠ PredKind.interfaceP)))

theorem stepOut_runTarget (backend : Nat → Nat → CheckResult)
    (acc : AnalysisOut) (t : VTarget) :
    StepOut acc.final (runTarget backend acc t).final :=
  stepOut_runTarget_aux backend t _ acc

theorem stepOut_runTargets (backend : Nat → Nat → CheckResult) :
    ∀ (ts : List VTarget) (acc : AnalysisOut),
      StepOut acc.final ((ts.foldl (runTarget backend) acc).final) := by
  intro ts
  induction ts with
  | nil => intro acc; exact stepOut_refl acc.final
  | cons t ts ih =>
      intro acc
      exact stepOut_trans (stepOut_runTarget backend acc t) (ih (runTarget backend acc t))

/-- The whole analysis is one StepOut transition from the initial state. -/
theorem analyze_stepOut (prog : List ContractDef)
    (backend : Nat → Nat → CheckResult) :
    StepOut initState (analyze prog backend).final := by
  unfold analyze
  lift_lets
  intro st₁ st₂ st₃ st₄
  have h₁ : StepOut initState st₁ :=
    stepOut_createSymbolicBlock initState .genesis "genesis" (by decide)
  have h₂ : StepOut initState st₂ := by
    refine stepOut_trans h₁ ?_
    refine ⟨le_refl _, ⟨[⟨.boolLit true, [], .boolLit true, genesisApp⟩], rfl, ?_⟩,
      fun hg => hg, ⟨[], registered_append_nil _ _ rfl,
        fun e he => absurd he (List.not_mem_nil e), by simp⟩⟩
    intro _ r hr
    rcases List.mem_singleton.mp hr with rfl
    exact ruleOk_predApp _ _ _ _ _
      (by exact (by decide : PredKind.genesis ≠ PredKind.interfaceP))
  have h₃ : StepOut initState st₃ := stepOut_trans h₂
    (stepOut_foldl _ (fun s c => stepOut_declareContract s c) prog st₂)
  have h₄ : StepOut initState st₄ := stepOut_trans h₃
    (stepOut_foldl _ (fun s c => stepOut_encodeContract prog s c) prog st₃)
  exact stepOut_trans h₄ (stepOut_runTargets backend st₄.targets ⟨st₄, [], []⟩)

/-- The initial encoder state is well formed. -/
theorem goodSt_initState : GoodSt initState :=
  ⟨fun e he => absurd he (List.not_mem_nil e),
   fun _ hd => Option.noConfusion hd,
   fun _ hd => Option.noConfusion hd⟩

/-! ## C4: every edge into an interface predicate carries error = 0 -/

/-- C4: every Horn rule accumulated over the whole analysis whose conclusion
is an interface predicate application has a guard carrying an error = 0
conjunct: the constructor-summary-to-interface edge is guarded by error = 0
itself and the public-function summary-to-interface edge by the summary
conjoined with error = 0, and no other emitted rule targets an interface. -/
theorem interface_edges_error_zero (prog : List ContractDef)
    (backend : Nat → Nat → CheckResult) (r : Rule)
    (hr : r ∈ (analyze prog backend).final.rules)
    (p : PredId) (args : List Term)
    (hd : r.dst = Term.predApp p args) (hk : p.kind = .interfaceP) :
    hasErrZero r.guard = true := by
  obtain ⟨-, ⟨Δ, hΔ, hok⟩, -, -⟩ := analyze_stepOut prog backend
  have h0 : initState.rules = [] := rfl
  rw [hΔ, h0, List.nil_append] at hr
  exact hok goodSt_initState r hr p args hd hk

/-- Concrete all-UNSAT backend used by the driver-level witnesses. -/
def exBk : Nat → Nat → CheckResult := fun _ _ => .UNSATISFIABLE

/-- C4 witness: in the analysis of the example contract, the rule at index 5
concludes in the interface of C and its guard carries error = 0. -/
theorem interface_edges_error_zero_witness :
    hasErrZero (((analyze [exC] exBk).final.rules.get ⟨5, by decide⟩).guard)
      = true :=
  interface_edges_error_zero [exC] exBk _ (List.get_mem _ _ _) _ _ rfl rfl

/-! ## C8: counter-stamped names and their uniqueness -/

/-- Counter-stamped registration kinds are exactly block and summary. -/
theorem isCtrKind_eq (k : PredKind) (h : isCtrKind k = true) :
    k = .blockP ∨ k = .funcSummary := by
  cases k <;> simp [isCtrKind] at h ⊢

/-- C8 counterexample: not every name registered with the solver contains
the block-counter value current at its creation — the genesis predicate is
registered as plain genesis at counter 0, which contains no digit at all. -/
theorem registered_name_without_counter :
    ∃ e ∈ (analyze [] (fun _ _ => CheckResult.UNKNOWN)).final.registered,
      containsSeq (natChars e.ctrAt) e.rname.data = false := by
  refine ⟨⟨"genesis", .genesis, 0⟩, ?_, ?_⟩
  · show _ ∈ [(⟨"genesis", .genesis, 0⟩ : RegEntry)]
    exact List.mem_singleton.mpr rfl
  · show containsSeq (natChars 0) "genesis".data = false
    rw [natChars_lt 0 (by omega)]
    decide

/-- C8 (amended): every predicate registered by createBlock or
createSummaryBlock — the block and summary kinds, whose creation goes
through uniquePrefix — has the block-counter value at its creation embedded
in its name, and all such names are pairwise distinct across the whole
analysis; names of other kinds (genesis, interface, error, ...) need not
embed the counter. -/
theorem generated_names_unique (prog : List ContractDef)
    (backend : Nat → Nat → CheckResult) :
    (∀ e ∈ (analyze prog backend).final.registered,
        isCtrKind e.kind = true →
        containsSeq (natChars e.ctrAt) e.rname.data = true) ∧
    (((analyze prog backend).final.registered.filter
        (fun e => isCtrKind e.kind)).Pairwise (fun a b => a.rname ≠ b.rname)) := by
  obtain ⟨-, -, -, ⟨E, hE, hprop, hpair⟩⟩ := analyze_stepOut prog backend
  have h0 : initState.registered = [] := rfl
  rw [hE, h0, List.nil_append]
  constructor
  · intro e he hk
    obtain ⟨⟨hb, hs⟩, -⟩ := hprop e he
    rcases isCtrKind_eq e.kind hk with hkb | hks
    · obtain ⟨pfx, rest, hname⟩ := hb hkb
      rw [hname]
      exact mkBlockName_contains_ctr e.ctrAt pfx rest
    · obtain ⟨rest, hname⟩ := hs hks
      rw [hname]
      exact mkSummaryName_contains_ctr e.ctrAt rest
  · refine List.Pairwise.imp_of_mem ?_ hpair
    intro a b ha hb hlt
    have haE := (List.mem_filter.mp ha).1
    have hbE := (List.mem_filter.mp hb).1
    have hak : isCtrKind a.kind = true := (List.mem_filter.mp ha).2
    have hbk : isCtrKind b.kind = true := (List.mem_filter.mp hb).2
    obtain ⟨⟨hab, has⟩, -⟩ := hprop a haE
    obtain ⟨⟨hbb, hbs⟩, -⟩ := hprop b hbE
    intro heq
    rcases isCtrKind_eq a.kind hak with hk₁ | hk₁ <;>
      rcases isCtrKind_eq b.kind hbk with hk₂ | hk₂
    · obtain ⟨p₁, r₁, hn₁⟩ := hab hk₁
      obtain ⟨p₂, r₂, hn₂⟩ := hbb hk₂
      rw [hn₁, hn₂] at heq
      have := mkBlockName_inj_ctr _ _ _ _ _ _ heq
      omega
    · obtain ⟨p₁, r₁, hn₁⟩ := hab hk₁
      obtain ⟨r₂, hn₂⟩ := hbs hk₂
      rw [hn₁, hn₂] at heq
      exact mkBlockName_ne_mkSummaryName _ _ _ _ _ heq
    · obtain ⟨r₁, hn₁⟩ := has hk₁
      obtain ⟨p₂, r₂, hn₂⟩ := hbb hk₂
      rw [hn₁, hn₂] at heq
      exact mkBlockName_ne_mkSummaryName _ _ _ _ _ heq.symm
    · obtain ⟨r₁, hn₁⟩ := has hk₁
      obtain ⟨r₂, hn₂⟩ := hbs hk₂
      rw [hn₁, hn₂] at heq
      have := mkSummaryName_inj_ctr _ _ _ _ heq
      omega

/-! ## C5 and C6: control-flow block and edge decompositions -/

/-- The rules field is unchanged by the conditional havoc at a block exit. -/
theorem iteErase_rules (s : EncState) (c : Bool) :
    (if c = true then eraseKnowledge s else s).rules = s.rules := by
  cases c <;> rfl

/-- The break destination is unchanged by the conditional havoc. -/
theorem iteErase_breakDest (s : EncState) (c : Bool) :
    (if c = true then eraseKnowledge s else s).breakDest = s.breakDest := by
  cases c <;> rfl

/-- The continue destination is unchanged by the conditional havoc. -/
theorem iteErase_continueDest (s : EncState) (c : Bool) :
    (if c = true then eraseKnowledge s else s).continueDest = s.continueDest := by
  cases c <;> rfl

/-- Append normalisation for three singleton connects. -/
theorem append_three (l : List Rule) (a b c : Rule) :
    ((l ++ [a]) ++ [b]) ++ [c] = l ++ [a, b, c] := by simp

/-- The loop destinations are untouched by the summary-call construction. -/
theorem predicateCall_dests (prog : List ContractDef) (st : EncState)
    (calleeFid : Nat) (argIds : List Nat) :
    (predicateCall prog st calleeFid argIds).2.breakDest = st.breakDest ∧
    (predicateCall prog st calleeFid argIds).2.continueDest = st.continueDest := by
  unfold predicateCall
  cases h : funcCallToDef prog calleeFid with
  | none => exact ⟨rfl, rfl⟩
  | some cf =>
      obtain ⟨cc, f⟩ := cf
      constructor
      · show (bumpOrCreateRets
            (bumpStateVars { st with errIdx := st.errIdx + 1 }) f.rets).breakDest
            = st.breakDest
        rw [(bumpOrCreateRets_fields f.rets _).2.2.2.2.2.2.2.1]
        rfl
      · show (bumpOrCreateRets
            (bumpStateVars { st with errIdx := st.errIdx + 1 }) f.rets).continueDest
            = st.continueDest
        rw [(bumpOrCreateRets_fields f.rets _).2.2.2.2.2.2.2.2]
        rfl

/-- The loop destinations are untouched by an internal function call. -/
theorem internalFunctionCall_dests (prog : List ContractDef) (st : EncState)
    (calleeFid : Nat) (argIds : List Nat) :
    (internalFunctionCall prog st calleeFid argIds).breakDest = st.breakDest ∧
    (internalFunctionCall prog st calleeFid argIds).continueDest
      = st.continueDest := by
  unfold internalFunctionCall
  cases h : funcCallToDef prog calleeFid with
  | none =>
      lift_lets
      intro st₁ prevErr pr st₃ st₄ st₅ st₆
      exact ⟨(predicateCall_dests prog st₁ calleeFid argIds).1,
        (predicateCall_dests prog st₁ calleeFid argIds).2⟩
  | some cf =>
      obtain ⟨cc, f⟩ := cf
      lift_lets
      intro st₁ prevErr pr st₃ st₄ st₅ st₆
      have hb1 : st₁.breakDest = st.breakDest := by
        show (if cc.isLib = true then
            addAssertion { st with callGraph := st.callGraph ++ [(scopeIdOf st, f.fid)] }
              (ifaceOf { st with callGraph := st.callGraph ++ [(scopeIdOf st, f.fid)] } cc)
          else { st with callGraph := st.callGraph ++ [(scopeIdOf st, f.fid)] }).breakDest
          = st.breakDest
        by_cases hlib : cc.isLib = true
        · rw [if_pos hlib]; rfl
        · rw [if_neg hlib]
      have hc1 : st₁.continueDest = st.continueDest := by
        show (if cc.isLib = true then
            addAssertion { st with callGraph := st.callGraph ++ [(scopeIdOf st, f.fid)] }
              (ifaceOf { st with callGraph := st.callGraph ++ [(scopeIdOf st, f.fid)] } cc)
          else { st with callGraph := st.callGraph ++ [(scopeIdOf st, f.fid)] }).continueDest
          = st.continueDest
        by_cases hlib : cc.isLib = true
        · rw [if_pos hlib]; rfl
        · rw [if_neg hlib]
      exact ⟨(predicateCall_dests prog st₁ calleeFid argIds).1.trans hb1,
        (predicateCall_dests prog st₁ calleeFid argIds).2.trans hc1⟩

/-- The if encoder restores the loop destinations when its branch encoders
keep them. -/
theorem encodeIfGen_dests (ifId condId thenId : Nat) (elseId : Option Nat)
    (recT recE : EncState → EncState) (st : EncState)
    (hTd : ∀ s, (recT s).breakDest = s.breakDest ∧
      (recT s).continueDest = s.continueDest)
    (hEd : ∀ s, (recE s).breakDest = s.breakDest ∧
      (recE s).continueDest = s.continueDest) :
    (encodeIfGen ifId condId thenId elseId recT recE st).breakDest
      = st.breakDest ∧
    (encodeIfGen ifId condId thenId elseId recT recE st).continueDest
      = st.continueDest := by
  cases elseId with
  | none =>
      unfold encodeIfGen
      lift_lets
      intro saved st0 fb ph hdr st1 pt tB st2 pf fBlk st3 pa afterB st4 st5
        st6 cond st7 st8 st9 st10 st11 st12 st13 st14
      constructor
      · show (if st13.unknownSeen = true then eraseKnowledge st13 else st13).breakDest
          = st.breakDest
        rw [iteErase_breakDest]
        show (recT st9).breakDest = st.breakDest
        rw [(hTd st9).1]
        rfl
      · show (if st13.unknownSeen = true then eraseKnowledge st13 else st13).continueDest
          = st.continueDest
        rw [iteErase_continueDest]
        show (recT st9).continueDest = st.continueDest
        rw [(hTd st9).2]
        rfl
  | some eId =>
      unfold encodeIfGen
      lift_lets
      intro saved st0 fb ph hdr st1 pt tB st2 pf fBlk st3 pa afterB st4 st5
        st6 cond st7 st8 st9 st10 st11 st12 st13 st14
      constructor
      · show (if st13.unknownSeen = true then eraseKnowledge st13 else st13).breakDest
          = st.breakDest
        rw [iteErase_breakDest]
        show (recE (setCurrentBlock st11
          (createBlockNode st2 eId "if_false_").1 none)).breakDest = st.breakDest
        rw [(hEd _).1]
        show (recT st9).breakDest = st.breakDest
        rw [(hTd st9).1]
        rfl
      · show (if st13.unknownSeen = true then eraseKnowledge st13 else st13).continueDest
          = st.continueDest
        rw [iteErase_continueDest]
        show (recE (setCurrentBlock st11
          (createBlockNode st2 eId "if_false_").1 none)).continueDest = st.continueDest
        rw [(hEd _).2]
        show (recT st9).continueDest = st.continueDest
        rw [(hTd st9).2]
        rfl

/-- The while encoder restores the outer loop destinations regardless of
what the body encoder does to them. -/
theorem encodeWhileGen_dests (isDoWhile : Bool)
    (whileId condId bodyId : Nat) (recB : EncState → EncState)
    (st : EncState) :
    (encodeWhileGen isDoWhile whileId condId bodyId recB st).breakDest
      = st.breakDest ∧
    (encodeWhileGen isDoWhile whileId condId bodyId recB st).continueDest
      = st.continueDest := by
  unfold encodeWhileGen
  lift_lets
  intro saved st0 fb pfx ph hdr st1 pb bodyB st2 pa afterB st3 outerBreak
    outerContinue st4 st5 st6 st7 cond st8 st9 st10 st11 st12 st13 st14 st15
  constructor
  · show (if st14.unknownSeen = true then eraseKnowledge st14 else st14).breakDest
      = st.breakDest
    rw [iteErase_breakDest]
    rfl
  · show (if st14.unknownSeen = true then eraseKnowledge st14 else st14).continueDest
      = st.continueDest
    rw [iteErase_continueDest]
    rfl

mutual

/-- The statement encoder leaves the loop destinations of the state
unchanged: break and continue destinations are only pushed for the
duration of a loop body and are restored afterwards. -/
theorem encodeStmt_dests (prog : List ContractDef) (s : Stmt) (st : EncState) :
    (encodeStmt prog s st).breakDest = st.breakDest ∧
    (encodeStmt prog s st).continueDest = st.continueDest := by
  cases s with
  | assertS condId callId => exact ⟨rfl, rfl⟩
  | callS fid argIds => exact internalFunctionCall_dests prog st fid argIds
  | unknownS nodeId => exact ⟨rfl, rfl⟩
  | breakS nodeId =>
      show ((match st.breakDest with
        | none => st
        | some d =>
            let st₁ := connectBlocks st st.currentBlock
              (.predApp d (currentBlockVars st)) (.boolLit true)
            let g := createBlockNode st₁ nodeId "break_ghost_"
            { g.2 with currentBlock := .predApp g.1 (currentBlockVars g.2) })).breakDest
          = st.breakDest ∧
        ((match st.breakDest with
        | none => st
        | some d =>
            let st₁ := connectBlocks st st.currentBlock
              (.predApp d (currentBlockVars st)) (.boolLit true)
            let g := createBlockNode st₁ nodeId "break_ghost_"
            { g.2 with currentBlock := .predApp g.1 (currentBlockVars g.2) })).continueDest
          = st.continueDest
      cases hd : st.breakDest with
      | none => exact ⟨hd, rfl⟩
      | some d => exact ⟨hd, rfl⟩
  | continueS nodeId =>
      show ((match st.continueDest with
        | none => st
        | some d =>
            let st₁ := connectBlocks st st.currentBlock
              (.predApp d (currentBlockVars st)) (.boolLit true)
            let g := createBlockNode st₁ nodeId "continue_ghost_"
            { g.2 with currentBlock := .predApp g.1 (currentBlockVars g.2) })).breakDest
          = st.breakDest ∧
        ((match st.continueDest with
        | none => st
        | some d =>
            let st₁ := connectBlocks st st.currentBlock
              (.predApp d (currentBlockVars st)) (.boolLit true)
            let g := createBlockNode st₁ nodeId "continue_ghost_"
            { g.2 with currentBlock := .predApp g.1 (currentBlockVars g.2) })).continueDest
          = st.continueDest
      cases hd : st.continueDest with
      | none => exact ⟨rfl, hd⟩
      | some d => exact ⟨rfl, hd⟩
  | ifS ifId condId thenId thenB elseInfo =>
      cases elseInfo with
      | none =>
          exact encodeIfGen_dests ifId condId thenId none
            (fun σ => encodeStmts prog thenB σ) (fun σ => σ) st
            (fun σ => encodeStmts_dests prog thenB σ)
            (fun σ => ⟨rfl, rfl⟩)
      | some ei =>
          exact encodeIfGen_dests ifId condId thenId (some ei.1)
            (fun σ => encodeStmts prog thenB σ)
            (fun σ => encodeStmts prog ei.2 σ) st
            (fun σ => encodeStmts_dests prog thenB σ)
            (fun σ => encodeStmts_dests prog ei.2 σ)
  | whileS isDoWhile whileId condId bodyId body =>
      exact encodeWhileGen_dests isDoWhile whileId condId bodyId
        (fun σ => encodeStmts prog body σ) st

/-- Statement lists also leave the loop destinations unchanged. -/
theorem encodeStmts_dests (prog : List ContractDef) (l : List Stmt)
    (st : EncState) :
    (encodeStmts prog l st).breakDest = st.breakDest ∧
    (encodeStmts prog l st).continueDest = st.continueDest := by
  cases l with
  | nil => exact ⟨rfl, rfl⟩
  | cons s ss =>
      have h₁ := encodeStmt_dests prog s st
      have h₂ := encodeStmts_dests prog ss (encodeStmt prog s st)
      exact ⟨h₂.1.trans h₁.1, h₂.2.trans h₁.2⟩

end

/-- Decomposition of the if encoder without an else branch: the header,
true and after blocks are created at consecutive counter values, the three
condition edges are emitted, the then branch is encoded from the true
block, and its terminal block is connected to the after block. -/
theorem encodeIfGen_none_decomp (ifId condId thenId : Nat)
    (recT recE : EncState → EncState) (st : EncState)
    (hT : ∀ s, ∃ Δ, (recT s).rules = s.rules ++ Δ) :
    ∃ (hdr tB afterB : PredId) (σT : EncState)
      (h2 a1 a2 a3 a4 aT : List Term),
      hdr = ⟨.blockP, mkBlockName st.blockCounter "if_header_"
        (predicateNameNode st ifId)⟩ ∧
      tB = ⟨.blockP, mkBlockName (st.blockCounter + 1) "if_true_"
        (predicateNameNode st thenId)⟩ ∧
      afterB = ⟨.blockP, mkBlockName (st.blockCounter + 2) ""
        (predicateNameNode st
          (match st.curFn with | some f => f.bodyId | none => 0))⟩ ∧
      σT.currentBlock = .predApp tB aT ∧
      σT.rules = st.rules ++
        [⟨st.currentBlock, st.ctxA, .boolLit true, .predApp hdr a1⟩,
         ⟨.predApp hdr h2, [], .astExpr condId, .predApp tB a2⟩,
         ⟨.predApp hdr h2, [], .notT (.astExpr condId), .predApp afterB a3⟩] ∧
      (encodeIfGen ifId condId thenId none recT recE st).rules =
        σT.rules ++ ((recT σT).rules.drop σT.rules.length) ++
        [⟨(recT σT).currentBlock, (recT σT).ctxA, .boolLit true,
          .predApp afterB a4⟩] := by
  unfold encodeIfGen
  lift_lets
  intro saved st0 fb ph hdr st1 pt tB st2 pf fBlk st3 pa afterB st4 st5 st6
    cond st7 st8 st9 st10 st11 st12 st13 st14
  refine ⟨hdr, tB, afterB, st9, currentBlockVars st6, currentBlockVars st4,
    currentBlockVars st6, currentBlockVars st7, currentBlockVars st10,
    currentBlockVars st9, rfl, rfl, rfl, rfl, ?_, ?_⟩
  · exact append_three st.rules _ _ _
  · obtain ⟨Δ, hΔ⟩ := hT st9
    have hdrop : (recT st9).rules.drop st9.rules.length = Δ := by
      rw [hΔ]; exact List.drop_left _ _
    have hL : ({ st14 with unknownSeen := saved } : EncState).rules =
        (recT st9).rules ++ [⟨st10.currentBlock, st10.ctxA, .boolLit true,
          .predApp afterB (currentBlockVars st10)⟩] := by
      show (if st13.unknownSeen = true then eraseKnowledge st13 else st13).rules = _
      rw [iteErase_rules]
      rfl
    rw [hL, hdrop, hΔ]

/-- Decomposition of the if encoder with an else branch: header, true,
false and after blocks at consecutive counter values, the condition edge
into the true block, the negated edge into the false block, and the
unconditional edges from the terminal block of each branch into the after
block. -/
theorem encodeIfGen_some_decomp (ifId condId thenId eId : Nat)
    (recT recE : EncState → EncState) (st : EncState)
    (hE : ∀ s, ∃ Δ, (recE s).rules = s.rules ++ Δ) :
    ∃ (hdr tB fB afterB : PredId) (σT σE : EncState)
      (h2 a1 a2 a3 a4 a5 aT aE : List Term),
      hdr = ⟨.blockP, mkBlockName st.blockCounter "if_header_"
        (predicateNameNode st ifId)⟩ ∧
      tB = ⟨.blockP, mkBlockName (st.blockCounter + 1) "if_true_"
        (predicateNameNode st thenId)⟩ ∧
      fB = ⟨.blockP, mkBlockName (st.blockCounter + 2) "if_false_"
        (predicateNameNode st eId)⟩ ∧
      afterB = ⟨.blockP, mkBlockName (st.blockCounter + 3) ""
        (predicateNameNode st
          (match st.curFn with | some f => f.bodyId | none => 0))⟩ ∧
      σT.currentBlock = .predApp tB aT ∧
      σE.currentBlock = .predApp fB aE ∧
      σT.rules = st.rules ++
        [⟨st.currentBlock, st.ctxA, .boolLit true, .predApp hdr a1⟩,
         ⟨.predApp hdr h2, [], .astExpr condId, .predApp tB a2⟩,
         ⟨.predApp hdr h2, [], .notT (.astExpr condId), .predApp fB a3⟩] ∧
      σE.rules = (recT σT).rules ++
        [⟨(recT σT).currentBlock, (recT σT).ctxA, .boolLit true,
          .predApp afterB a4⟩] ∧
      (encodeIfGen ifId condId thenId (some eId) recT recE st).rules =
        σE.rules ++ ((recE σE).rules.drop σE.rules.length) ++
        [⟨(recE σE).currentBlock, (recE σE).ctxA, .boolLit true,
          .predApp afterB a5⟩] := by
  unfold encodeIfGen
  lift_lets
  intro saved st0 fb ph hdr st1 pt tB st2 pf fBlk st3 pa afterB st4 st5 st6
    cond st7 st8 st9 st10 st11 st12 st13 st14
  refine ⟨hdr, tB,
    ⟨.blockP, mkBlockName (st.blockCounter + 2) "if_false_"
      (predicateNameNode st eId)⟩, afterB, st9,
    setCurrentBlock st11
      ⟨.blockP, mkBlockName (st.blockCounter + 2) "if_false_"
        (predicateNameNode st eId)⟩ none,
    currentBlockVars st6, currentBlockVars st4, currentBlockVars st6,
    currentBlockVars st7, currentBlockVars st10,
    currentBlockVars (recE (setCurrentBlock st11
      ⟨.blockP, mkBlockName (st.blockCounter + 2) "if_false_"
        (predicateNameNode st eId)⟩ none)),
    currentBlockVars st9,
    currentBlockVars (setCurrentBlock st11
      ⟨.blockP, mkBlockName (st.blockCounter + 2) "if_false_"
        (predicateNameNode st eId)⟩ none),
    rfl, rfl, rfl, rfl, rfl, rfl, ?_, rfl, ?_⟩
  · exact append_three st.rules _ _ _
  · obtain ⟨Δ, hΔ⟩ := hE (setCurrentBlock st11
      ⟨.blockP, mkBlockName (st.blockCounter + 2) "if_false_"
        (predicateNameNode st eId)⟩ none)
    have hdrop : (recE (setCurrentBlock st11
        ⟨.blockP, mkBlockName (st.blockCounter + 2) "if_false_"
          (predicateNameNode st eId)⟩ none)).rules.drop
        (setCurrentBlock st11
          ⟨.blockP, mkBlockName (st.blockCounter + 2) "if_false_"
            (predicateNameNode st eId)⟩ none).rules.length = Δ := by
      rw [hΔ]; exact List.drop_left _ _
    have hL : ({ st14 with unknownSeen := saved } : EncState).rules =
        (recE (setCurrentBlock st11
          ⟨.blockP, mkBlockName (st.blockCounter + 2) "if_false_"
            (predicateNameNode st eId)⟩ none)).rules ++
        [⟨(recE (setCurrentBlock st11
            ⟨.blockP, mkBlockName (st.blockCounter + 2) "if_false_"
              (predicateNameNode st eId)⟩ none)).currentBlock,
          (recE (setCurrentBlock st11
            ⟨.blockP, mkBlockName (st.blockCounter + 2) "if_false_"
              (predicateNameNode st eId)⟩ none)).ctxA,
          .boolLit true,
          .predApp afterB (currentBlockVars (recE (setCurrentBlock st11
            ⟨.blockP, mkBlockName (st.blockCounter + 2) "if_false_"
              (predicateNameNode st eId)⟩ none)))⟩] := by
      show (if st13.unknownSeen = true then eraseKnowledge st13 else st13).rules = _
      rw [iteErase_rules]
      rfl
    rw [hL, hdrop, hΔ]

/-- Decomposition of the while / do-while encoder: header, body and after
blocks at consecutive counter values, break and continue destinations
pushed to the after block and the header for the body, the body visited
before the header connection for do-while, the two condition edges out of
the header, the back edge from the body's terminal block to the header, and
the outer loop destinations restored at exit. -/
theorem encodeWhileGen_decomp (isDoWhile : Bool)
    (whileId condId bodyId : Nat) (recB : EncState → EncState)
    (st : EncState) (hB : ∀ s, ∃ Δ, (recB s).rules = s.rules ++ Δ)
    (hBd : ∀ s, (recB s).breakDest = s.breakDest ∧
      (recB s).continueDest = s.continueDest) :
    ∃ (hdr bodyB afterB : PredId) (σP σ₀ σB : EncState)
      (h2 a1 a2 a3 a4 aB : List Term),
      hdr = ⟨.blockP, mkBlockName st.blockCounter
        (((if isDoWhile = true then "do_" else "") ++ "while") ++ "_header_")
        (predicateNameNode st whileId)⟩ ∧
      bodyB = ⟨.blockP, mkBlockName (st.blockCounter + 1)
        (((if isDoWhile = true then "do_" else "") ++ "while") ++ "_body_")
        (predicateNameNode st bodyId)⟩ ∧
      afterB = ⟨.blockP, mkBlockName (st.blockCounter + 2) ""
        (predicateNameNode st
          (match st.curFn with | some f => f.bodyId | none => 0))⟩ ∧
      σP.breakDest = some afterB ∧ σP.continueDest = some hdr ∧
      σP.rules = st.rules ∧
      σ₀ = (if isDoWhile = true then recB σP else σP) ∧
      σB.breakDest = some afterB ∧ σB.continueDest = some hdr ∧
      σB.currentBlock = .predApp bodyB aB ∧
      σB.rules = σ₀.rules ++
        [⟨σ₀.currentBlock, σ₀.ctxA, .boolLit true, .predApp hdr a1⟩,
         ⟨.predApp hdr h2, [], .astExpr condId, .predApp bodyB a2⟩,
         ⟨.predApp hdr h2, [], .notT (.astExpr condId), .predApp afterB a3⟩] ∧
      (encodeWhileGen isDoWhile whileId condId bodyId recB st).rules =
        σB.rules ++ ((recB σB).rules.drop σB.rules.length) ++
        [⟨(recB σB).currentBlock, (recB σB).ctxA, .boolLit true,
          .predApp hdr a4⟩] ∧
      (encodeWhileGen isDoWhile whileId condId bodyId recB st).breakDest =
        st.breakDest ∧
      (encodeWhileGen isDoWhile whileId condId bodyId recB st).continueDest =
        st.continueDest := by
  unfold encodeWhileGen
  lift_lets
  intro saved st0 fb pfx ph hdr st1 pb bodyB st2 pa afterB st3 outerBreak
    outerContinue st4 st5 st6 st7 cond st8 st9 st10 st11 st12 st13 st14 st15
  have h5b : st5.breakDest = st4.breakDest := by
    show (if isDoWhile = true then recB st4 else st4).breakDest = st4.breakDest
    by_cases hdw : isDoWhile = true
    · rw [if_pos hdw]; exact (hBd st4).1
    · rw [if_neg hdw]
  have h5c : st5.continueDest = st4.continueDest := by
    show (if isDoWhile = true then recB st4 else st4).continueDest
      = st4.continueDest
    by_cases hdw : isDoWhile = true
    · rw [if_pos hdw]; exact (hBd st4).2
    · rw [if_neg hdw]
  refine ⟨hdr, bodyB, afterB, st4, st5, st10, currentBlockVars st7,
    currentBlockVars st5, currentBlockVars st7, currentBlockVars st8,
    currentBlockVars st12, currentBlockVars st10,
    rfl, rfl, rfl, rfl, rfl, rfl, rfl, h5b, h5c, rfl, ?_, ?_, ?_, ?_⟩
  · exact append_three st5.rules _ _ _
  · obtain ⟨Δ, hΔ⟩ := hB st10
    have hdrop : (recB st10).rules.drop st10.rules.length = Δ := by
      rw [hΔ]; exact List.drop_left _ _
    have hL : ({ st15 with unknownSeen := saved } : EncState).rules =
        (recB st10).rules ++ [⟨st11.currentBlock, st11.ctxA, .boolLit true,
          .predApp hdr (currentBlockVars st12)⟩] := by
      show (if st14.unknownSeen = true then eraseKnowledge st14 else st14).rules = _
      rw [iteErase_rules]
      rfl
    rw [hL, hdrop, hΔ]
  · show (if st14.unknownSeen = true then eraseKnowledge st14 else st14).breakDest = _
    rw [iteErase_breakDest]
    rfl
  · show (if st14.unknownSeen = true then eraseKnowledge st14 else st14).continueDest = _
    rw [iteErase_continueDest]
    rfl

/-- C5: for every encoded if statement, a header block and a true block are
created, a false block exactly when an else branch exists, and an after
block, all at consecutive counter values; the emitted edges are: current
block to header unconditionally; header to true block guarded by the
condition; header to the false block when an else exists, otherwise to the
after block, guarded by the negated condition; then the rules of each
branch body, and the terminal block of each branch to the after block
unconditionally — and nothing else. -/
theorem if_statement_blocks_edges (prog : List ContractDef)
    (ifId condId thenId : Nat) (thenB : List Stmt)
    (elseInfo : Option (Nat × List Stmt)) (st : EncState) :
    (elseInfo = none →
      ∃ (hdr tB afterB : PredId) (σT : EncState)
        (h2 a1 a2 a3 a4 aT : List Term),
        hdr = ⟨.blockP, mkBlockName st.blockCounter "if_header_"
          (predicateNameNode st ifId)⟩ ∧
        tB = ⟨.blockP, mkBlockName (st.blockCounter + 1) "if_true_"
          (predicateNameNode st thenId)⟩ ∧
        afterB = ⟨.blockP, mkBlockName (st.blockCounter + 2) ""
          (predicateNameNode st
            (match st.curFn with | some f => f.bodyId | none => 0))⟩ ∧
        σT.currentBlock = .predApp tB aT ∧
        σT.rules = st.rules ++
          [⟨st.currentBlock, st.ctxA, .boolLit true, .predApp hdr a1⟩,
           ⟨.predApp hdr h2, [], .astExpr condId, .predApp tB a2⟩,
           ⟨.predApp hdr h2, [], .notT (.astExpr condId), .predApp afterB a3⟩] ∧
        (encodeStmt prog (.ifS ifId condId thenId thenB elseInfo) st).rules =
          σT.rules ++
          ((encodeStmts prog thenB σT).rules.drop σT.rules.length) ++
          [⟨(encodeStmts prog thenB σT).currentBlock,
            (encodeStmts prog thenB σT).ctxA, .boolLit true,
            .predApp afterB a4⟩]) ∧
    (∀ eId elseB, elseInfo = some (eId, elseB) →
      ∃ (hdr tB fB afterB : PredId) (σT σE : EncState)
        (h2 a1 a2 a3 a4 a5 aT aE : List Term),
        hdr = ⟨.blockP, mkBlockName st.blockCounter "if_header_"
          (predicateNameNode st ifId)⟩ ∧
        tB = ⟨.blockP, mkBlockName (st.blockCounter + 1) "if_true_"
          (predicateNameNode st thenId)⟩ ∧
        fB = ⟨.blockP, mkBlockName (st.blockCounter + 2) "if_false_"
          (predicateNameNode st eId)⟩ ∧
        afterB = ⟨.blockP, mkBlockName (st.blockCounter + 3) ""
          (predicateNameNode st
            (match st.curFn with | some f => f.bodyId | none => 0))⟩ ∧
        σT.currentBlock = .predApp tB aT ∧
        σE.currentBlock = .predApp fB aE ∧
        σT.rules = st.rules ++
          [⟨st.currentBlock, st.ctxA, .boolLit true, .predApp hdr a1⟩,
           ⟨.predApp hdr h2, [], .astExpr condId, .predApp tB a2⟩,
           ⟨.predApp hdr h2, [], .notT (.astExpr condId), .predApp fB a3⟩] ∧
        σE.rules = (encodeStmts prog thenB σT).rules ++
          [⟨(encodeStmts prog thenB σT).currentBlock,
            (encodeStmts prog thenB σT).ctxA, .boolLit true,
            .predApp afterB a4⟩] ∧
        (encodeStmt prog (.ifS ifId condId thenId thenB elseInfo) st).rules =
          σE.rules ++
          ((encodeStmts prog elseB σE).rules.drop σE.rules.length) ++
          [⟨(encodeStmts prog elseB σE).currentBlock,
            (encodeStmts prog elseB σE).ctxA, .boolLit true,
            .predApp afterB a5⟩]) := by
  constructor
  · rintro rfl
    exact encodeIfGen_none_decomp ifId condId thenId
      (fun σ => encodeStmts prog thenB σ) (fun σ => σ) st
      (fun s => by
        obtain ⟨-, ⟨Δ, hΔ, -⟩, -, -⟩ := encodeStmts_stepOut prog thenB s
        exact ⟨Δ, hΔ⟩)
  · rintro eId elseB rfl
    exact encodeIfGen_some_decomp ifId condId thenId eId
      (fun σ => encodeStmts prog thenB σ) (fun σ => encodeStmts prog elseB σ)
      st
      (fun s => by
        obtain ⟨-, ⟨Δ, hΔ, -⟩, -, -⟩ := encodeStmts_stepOut prog elseB s
        exact ⟨Δ, hΔ⟩)

/-- C5 witness: the theorem applied to a concrete if statement without an
else branch and to one with an else branch, at the initial state. -/
theorem if_statement_blocks_edges_witness :
    (∃ (hdr tB afterB : PredId) (σT : EncState)
      (h2 a1 a2 a3 a4 aT : List Term),
      hdr = ⟨.blockP, mkBlockName initState.blockCounter "if_header_"
        (predicateNameNode initState 20)⟩ ∧
      tB = ⟨.blockP, mkBlockName (initState.blockCounter + 1) "if_true_"
        (predicateNameNode initState 22)⟩ ∧
      afterB = ⟨.blockP, mkBlockName (initState.blockCounter + 2) ""
        (predicateNameNode initState
          (match initState.curFn with | some f => f.bodyId | none => 0))⟩ ∧
      σT.currentBlock = .predApp tB aT ∧
      σT.rules = initState.rules ++
        [⟨initState.currentBlock, initState.ctxA, .boolLit true, .predApp hdr a1⟩,
         ⟨.predApp hdr h2, [], .astExpr 21, .predApp tB a2⟩,
         ⟨.predApp hdr h2, [], .notT (.astExpr 21), .predApp afterB a3⟩] ∧
      (encodeStmt [] (.ifS 20 21 22 [] none) initState).rules =
        σT.rules ++
        ((encodeStmts [] [] σT).rules.drop σT.rules.length) ++
        [⟨(encodeStmts [] [] σT).currentBlock,
          (encodeStmts [] [] σT).ctxA, .boolLit true,
          .predApp afterB a4⟩]) ∧
    (∃ (hdr tB fB afterB : PredId) (σT σE : EncState)
      (h2 a1 a2 a3 a4 a5 aT aE : List Term),
      hdr = ⟨.blockP, mkBlockName initState.blockCounter "if_header_"
        (predicateNameNode initState 20)⟩ ∧
      tB = ⟨.blockP, mkBlockName (initState.blockCounter + 1) "if_true_"
        (predicateNameNode initState 22)⟩ ∧
      fB = ⟨.blockP, mkBlockName (initState.blockCounter + 2) "if_false_"
        (predicateNameNode initState 23)⟩ ∧
      afterB = ⟨.blockP, mkBlockName (initState.blockCounter + 3) ""
        (predicateNameNode initState
          (match initState.curFn with | some f => f.bodyId | none => 0))⟩ ∧
      σT.currentBlock = .predApp tB aT ∧
      σE.currentBlock = .predApp fB aE ∧
      σT.rules = initState.rules ++
        [⟨initState.currentBlock, initState.ctxA, .boolLit true, .predApp hdr a1⟩,
         ⟨.predApp hdr h2, [], .astExpr 21, .predApp tB a2⟩,
         ⟨.predApp hdr h2, [], .notT (.astExpr 21), .predApp fB a3⟩] ∧
      σE.rules = (encodeStmts [] [] σT).rules ++
        [⟨(encodeStmts [] [] σT).currentBlock,
          (encodeStmts [] [] σT).ctxA, .boolLit true,
          .predApp afterB a4⟩] ∧
      (encodeStmt [] (.ifS 20 21 22 [] (some (23, []))) initState).rules =
        σE.rules ++
        ((encodeStmts [] [] σE).rules.drop σE.rules.length) ++
        [⟨(encodeStmts [] [] σE).currentBlock,
          (encodeStmts [] [] σE).ctxA, .boolLit true,
          .predApp afterB a5⟩]) :=
  ⟨(if_statement_blocks_edges [] 20 21 22 [] none initState).1 rfl,
   (if_statement_blocks_edges [] 20 21 22 [] (some (23, [])) initState).2
     23 [] rfl⟩

/-- C6: for every encoded while or do-while loop, header, body and after
blocks are created at consecutive counter values; the break destination is
pushed to the after block and the continue destination to the header for
the duration of the body and both are restored at exit; for a do-while
loop the body is visited once before the current block is connected to the
header; the header is connected to the body block guarded by the
condition and to the after block guarded by its negation; and the body's
terminal block is connected back to the header. -/
theorem while_statement_blocks_edges (prog : List ContractDef)
    (isDoWhile : Bool) (whileId condId bodyId : Nat) (body : List Stmt)
    (st : EncState) :
    ∃ (hdr bodyB afterB : PredId) (σP σ₀ σB : EncState)
      (h2 a1 a2 a3 a4 aB : List Term),
      hdr = ⟨.blockP, mkBlockName st.blockCounter
        (((if isDoWhile = true then "do_" else "") ++ "while") ++ "_header_")
        (predicateNameNode st whileId)⟩ ∧
      bodyB = ⟨.blockP, mkBlockName (st.blockCounter + 1)
        (((if isDoWhile = true then "do_" else "") ++ "while") ++ "_body_")
        (predicateNameNode st bodyId)⟩ ∧
      afterB = ⟨.blockP, mkBlockName (st.blockCounter + 2) ""
        (predicateNameNode st
          (match st.curFn with | some f => f.bodyId | none => 0))⟩ ∧
      σP.breakDest = some afterB ∧ σP.continueDest = some hdr ∧
      σP.rules = st.rules ∧
      σ₀ = (if isDoWhile = true then encodeStmts prog body σP else σP) ∧
      σB.breakDest = some afterB ∧ σB.continueDest = some hdr ∧
      σB.currentBlock = .predApp bodyB aB ∧
      σB.rules = σ₀.rules ++
        [⟨σ₀.currentBlock, σ₀.ctxA, .boolLit true, .predApp hdr a1⟩,
         ⟨.predApp hdr h2, [], .astExpr condId, .predApp bodyB a2⟩,
         ⟨.predApp hdr h2, [], .notT (.astExpr condId), .predApp afterB a3⟩] ∧
      (encodeStmt prog (.whileS isDoWhile whileId condId bodyId body) st).rules =
        σB.rules ++
        ((encodeStmts prog body σB).rules.drop σB.rules.length) ++
        [⟨(encodeStmts prog body σB).currentBlock,
          (encodeStmts prog body σB).ctxA, .boolLit true,
          .predApp hdr a4⟩] ∧
      (encodeStmt prog (.whileS isDoWhile whileId condId bodyId body) st).breakDest
        = st.breakDest ∧
      (encodeStmt prog (.whileS isDoWhile whileId condId bodyId body) st).continueDest
        = st.continueDest :=
  encodeWhileGen_decomp isDoWhile whileId condId bodyId
    (fun σ => encodeStmts prog body σ) st
    (fun s => by
      obtain ⟨-, ⟨Δ, hΔ, -⟩, -, -⟩ := encodeStmts_stepOut prog body s
      exact ⟨Δ, hΔ⟩)
    (fun s => encodeStmts_dests prog body s)

/-- C8 witness: the registered entry at index 7 of the example analysis is a
statement block whose name embeds its creation-time counter value. -/
theorem generated_names_unique_witness :
    containsSeq
      (natChars (((analyze [exC] exBk).final.registered.get ⟨7, by decide⟩).ctrAt))
      (((analyze [exC] exBk).final.registered.get ⟨7, by decide⟩).rname.data)
      = true :=
  (generated_names_unique [exC] exBk).1 _ (List.get_mem _ _ _) rfl

/-! ## C1: the safe-assertion classification of the query loop -/

/-- Internal function with one assert, called from two public functions. -/
def exF2 : FuncDef :=
  { fid := 30, fname := "f", isCtor := false, isPublic := false,
    implemented := true, params := [], rets := [], locals := [],
    bodyId := 36, body := [.assertS 31 32] }

/-- First public caller of exF2. -/
def exG2 : FuncDef :=
  { fid := 33, fname := "g", isCtor := false, isPublic := true,
    implemented := true, params := [], rets := [], locals := [],
    bodyId := 37, body := [.callS 30 []] }

/-- Second public caller of exF2. -/
def exH2 : FuncDef :=
  { fid := 34, fname := "h", isCtor := false, isPublic := true,
    implemented := true, params := [], rets := [], locals := [],
    bodyId := 38, body := [.callS 30 []] }

/-- Contract whose assert in exF2 is gathered for both public targets. -/
def exC2 : ContractDef :=
  { cid := 35, cname := "E", isLib := false, stateVars := [],
    funcs := [exF2, exG2, exH2] }

/-- Backend that proves the assertion only under the first caller. -/
def exBk2 : Nat → Nat → CheckResult :=
  fun scope _ => if scope = 33 then .UNSATISFIABLE else .SATISFIABLE

/-- C1 counterexample: the safe marking is not an iff per (target,
assertion) pair.  The assert of the internal function is gathered for both
public-function targets; the backend answers UNSATISFIABLE for the first
target and SATISFIABLE for the second, yet the assertion sits in the safe
set, so for the second target membership holds while its query did not
return UNSATISFIABLE. -/
theorem safe_iff_unsat_counterexample :
    ∃ t ∈ (analyze [exC2] exBk2).final.targets,
      ∃ a ∈ transactionAssertions (analyze [exC2] exBk2).final.callGraph
          (analyze [exC2] exBk2).final.funcAsserts t.scopeId,
        a ∈ (analyze [exC2] exBk2).safe ∧
        exBk2 t.scopeId a = .SATISFIABLE := by
  refine ⟨(analyze [exC2] exBk2).final.targets.get ⟨1, by decide⟩,
    List.get_mem _ _ _, 32, by decide, by decide, by decide⟩

/-- The query loop of one target does not change the call graph, the
function-assertions map or the target list of the final state. -/
theorem runTarget_inv (backend : Nat → Nat → CheckResult) (t : VTarget) :
    ∀ (l : List Nat) (acc : AnalysisOut),
      (l.foldl (fun a (aId : Nat) =>
        let st₁ := createErrorBlock a.final
        let st₂ := connectBlocks st₁ t.value (errorApp st₁)
          (.andT t.constraints (.eqT t.errorId (.intLit (aId : Int))))
        let r := backend t.scopeId aId
        ({ final := st₂,
           safe := if r = .UNSATISFIABLE then a.safe ++ [aId] else a.safe,
           warns := a.warns ++ queryWarn r } : AnalysisOut)) acc).final.callGraph
          = acc.final.callGraph ∧
      (l.foldl (fun a (aId : Nat) =>
        let st₁ := createErrorBlock a.final
        let st₂ := connectBlocks st₁ t.value (errorApp st₁)
          (.andT t.constraints (.eqT t.errorId (.intLit (aId : Int))))
        let r := backend t.scopeId aId
        ({ final := st₂,
           safe := if r = .UNSATISFIABLE then a.safe ++ [aId] else a.safe,
           warns := a.warns ++ queryWarn r } : AnalysisOut)) acc).final.funcAsserts
          = acc.final.funcAsserts ∧
      (l.foldl (fun a (aId : Nat) =>
        let st₁ := createErrorBlock a.final
        let st₂ := connectBlocks st₁ t.value (errorApp st₁)
          (.andT t.constraints (.eqT t.errorId (.intLit (aId : Int))))
        let r := backend t.scopeId aId
        ({ final := st₂,
           safe := if r = .UNSATISFIABLE then a.safe ++ [aId] else a.safe,
           warns := a.warns ++ queryWarn r } : AnalysisOut)) acc).final.targets
          = acc.final.targets := by
  intro l
  induction l with
  | nil => intro acc; exact ⟨rfl, rfl, rfl⟩
  | cons x xs ih =>
      intro acc
      obtain ⟨h₁, h₂, h₃⟩ := ih _
      exact ⟨h₁.trans rfl, h₂.trans rfl, h₃.trans rfl⟩

/-- Field projections of runTarget. -/
theorem runTarget_fields (backend : Nat → Nat → CheckResult)
    (acc : AnalysisOut) (t : VTarget) :
    (runTarget backend acc t).final.callGraph = acc.final.callGraph ∧
    (runTarget backend acc t).final.funcAsserts = acc.final.funcAsserts ∧
    (runTarget backend acc t).final.targets = acc.final.targets :=
  runTarget_inv backend t _ acc

/-- The safe set grows by exactly the assertions of the list whose query
returned UNSATISFIABLE. -/
theorem runTarget_safe_aux (backend : Nat → Nat → CheckResult) (t : VTarget) :
    ∀ (l : List Nat) (acc : AnalysisOut),
      (l.foldl (fun a (aId : Nat) =>
        let st₁ := createErrorBlock a.final
        let st₂ := connectBlocks st₁ t.value (errorApp st₁)
          (.andT t.constraints (.eqT t.errorId (.intLit (aId : Int))))
        let r := backend t.scopeId aId
        ({ final := st₂,
           safe := if r = .UNSATISFIABLE then a.safe ++ [aId] else a.safe,
           warns := a.warns ++ queryWarn r } : AnalysisOut)) acc).safe =
      acc.safe ++
        l.filter (fun aId => backend t.scopeId aId = .UNSATISFIABLE) := by
  intro l
  induction l with
  | nil => intro acc; simp
  | cons x xs ih =>
      intro acc
      rw [List.foldl_cons, ih]
      by_cases hx : backend t.scopeId x = .UNSATISFIABLE
      · simp [hx, List.filter_cons]
      · simp [hx, List.filter_cons]

/-- The safe set after one target: the previous safe set extended by the
gathered assertions whose query returned UNSATISFIABLE. -/
theorem runTarget_safe (backend : Nat → Nat → CheckResult)
    (acc : AnalysisOut) (t : VTarget) :
    (runTarget backend acc t).safe = acc.safe ++
      (transactionAssertions acc.final.callGraph acc.final.funcAsserts
        t.scopeId).filter
        (fun aId => backend t.scopeId aId = .UNSATISFIABLE) :=
  runTarget_safe_aux backend t _ acc

/-- Membership characterisation of the safe set through the target fold,
together with the invariance of the lookup fields. -/
theorem foldl_runTarget_char (backend : Nat → Nat → CheckResult) (a : Nat) :
    ∀ (ts : List VTarget) (acc : AnalysisOut),
      (a ∈ (ts.foldl (runTarget backend) acc).safe ↔
        a ∈ acc.safe ∨ ∃ t ∈ ts,
          a ∈ transactionAssertions acc.final.callGraph acc.final.funcAsserts
            t.scopeId ∧
          backend t.scopeId a = .UNSATISFIABLE) ∧
      (ts.foldl (runTarget backend) acc).final.callGraph
        = acc.final.callGraph ∧
      (ts.foldl (runTarget backend) acc).final.funcAsserts
        = acc.final.funcAsserts ∧
      (ts.foldl (runTarget backend) acc).final.targets
        = acc.final.targets := by
  intro ts
  induction ts with
  | nil => intro acc; exact ⟨by simp, rfl, rfl, rfl⟩
  | cons t ts ih =>
      intro acc
      obtain ⟨ihm, ihcg, ihfa, ihtg⟩ := ih (runTarget backend acc t)
      obtain ⟨hcg, hfa, htg⟩ := runTarget_fields backend acc t
      refine ⟨?_, ihcg.trans hcg, ihfa.trans hfa, ihtg.trans htg⟩
      rw [List.foldl_cons, ihm, runTarget_safe backend acc t, hcg, hfa]
      simp only [List.mem_append, List.mem_filter, decide_eq_true_eq]
      constructor
      · rintro ((h | ⟨hta, hu⟩) | ⟨t', ht', hta, hu⟩)
        · exact Or.inl h
        · exact Or.inr ⟨t, List.mem_cons_self t ts, hta, hu⟩
        · exact Or.inr ⟨t', List.mem_cons_of_mem t ht', hta, hu⟩
      · rintro (h | ⟨t', ht', hta, hu⟩)
        · exact Or.inl (Or.inl h)
        · rcases List.mem_cons.mp ht' with rfl | h'
          · exact Or.inl (Or.inr ⟨hta, hu⟩)
          · exact Or.inr ⟨t', h', hta, hu⟩

/-- C1 (amended): an assertion is in the safe set returned by the analysis
if and only if SOME verification target gathers it and the backend query
for THAT target returns UNSATISFIABLE — the classification is not per
(target, assertion) pair, since the safe set is shared by all targets; and
SATISFIABLE or UNKNOWN answers produce no report. -/
theorem safe_iff_query_unsat (prog : List ContractDef)
    (backend : Nat → Nat → CheckResult) (a : Nat) :
    (a ∈ (analyze prog backend).safe ↔
      ∃ t ∈ (analyze prog backend).final.targets,
        a ∈ transactionAssertions (analyze prog backend).final.callGraph
          (analyze prog backend).final.funcAsserts t.scopeId ∧
        backend t.scopeId a = .UNSATISFIABLE) ∧
    queryWarn .SATISFIABLE = [] ∧ queryWarn .UNKNOWN = [] := by
  refine ⟨?_, rfl, rfl⟩
  unfold analyze
  lift_lets
  intro st₁ st₂ st₃ st₄
  obtain ⟨hmem, hcg, hfa, htg⟩ :=
    foldl_runTarget_char backend a st₄.targets ⟨st₄, [], []⟩
  rw [hcg, hfa, htg, hmem]
  simp

/-- C1 witness: the amended theorem applied at the empty program. -/
theorem safe_iff_query_unsat_witness : queryWarn .SATISFIABLE = [] :=
  (safe_iff_query_unsat [] (fun _ _ => CheckResult.UNKNOWN) 0).2.1

end SolCHC
